import Mathlib

/-!
# Verification of the SecureChat encryption and key-management core

This file gives a shallow embedding, in Lean 4, of the end-to-end encryption
and key-management core of the Messagingapp repository (an Expo/React-Native
messaging client), and proves or refutes the frozen specification claims about
it.

The embedded code comes from:
* `src/unnamed/part_003` — the `EncryptionManager` (key pairs, chat keys,
  message/file encryption); this is the 3-argument version used by the
  current `ChatManager`.
* `src/lib/encryption.ts` — the older 2-argument `EncryptionManager`
  (pairwise-only encryption, no chat keys).
* `src/lib/chat.ts` and `src/unnamed/part_004` — the two `ChatManager`
  generations (chat creation, sending, retry queue, group membership).

The repository's cryptography is the `crypto-js` library.  The library calls
are embedded as executable Lean functions with the same semantics:
* `CryptoJS.SHA256(s)` — SHA-256 of the UTF-8 bytes of `s`, hex string output;
* `CryptoJS.AES.encrypt(msg, password)` / `CryptoJS.AES.decrypt` — the
  OpenSSL-compatible password mode: an 8-byte random salt, `EVP_BytesToKey`
  key derivation with MD5 (one iteration) producing a 32-byte AES-256 key and
  a 16-byte IV, CBC mode, PKCS#7 padding (with crypto-js's unvalidated
  unpadding), `Salted__`-prefixed ciphertext;
* `CryptoJS.enc.Utf8` / `CryptoJS.enc.Base64` — UTF-8 and Base64 codecs.

JavaScript strings are modelled as Lean `String` (sequences of Unicode scalar
values); all key material in the code is ASCII hex, where the two notions
coincide.  Nondeterministic inputs (random salts, nonces, `Date.now()`
timestamps) are explicit parameters of the embedded functions, and thrown
JavaScript `Error`s are modelled with `Except String`.
-/

namespace SecureChat

/-! ## Byte-level helpers

Bytes are `Nat`s below 256; byte strings are `List Nat`.  32-bit words are
`Nat`s below 2^32 with explicit masking. -/

/-- All elements of a byte list are bytes. -/
def BytesOk (l : List Nat) : Prop := ∀ b ∈ l, b < 256

instance : DecidablePred BytesOk := fun l =>
  inferInstanceAs (Decidable (∀ b ∈ l, b < 256))

/-- 32-bit truncation. -/
def m32 (x : Nat) : Nat := x &&& 0xffffffff

/-- Right rotation of a 32-bit word. -/
def rotr (n x : Nat) : Nat := (x >>> n) ||| ((x <<< (32 - n)) &&& 0xffffffff)

/-- Left rotation of a 32-bit word. -/
def rotl (n x : Nat) : Nat := ((x <<< n) &&& 0xffffffff) ||| (x >>> (32 - n))

/-- Big-endian 4-byte packing of a word list from a byte list
(inputs are always a multiple of 4 bytes long). -/
def bytesToWordsBE : List Nat → List Nat
  | a :: b :: c :: d :: rest => (a <<< 24 ||| b <<< 16 ||| c <<< 8 ||| d) :: bytesToWordsBE rest
  | _ => []

/-- Big-endian word-to-bytes. -/
def wordToBytesBE (w : Nat) : List Nat :=
  [(w >>> 24) &&& 0xff, (w >>> 16) &&& 0xff, (w >>> 8) &&& 0xff, w &&& 0xff]

/-- Little-endian 4-byte packing (for MD5). -/
def bytesToWordsLE : List Nat → List Nat
  | a :: b :: c :: d :: rest => (d <<< 24 ||| c <<< 16 ||| b <<< 8 ||| a) :: bytesToWordsLE rest
  | _ => []

/-- Little-endian word-to-bytes (for MD5). -/
def wordToBytesLE (w : Nat) : List Nat :=
  [w &&& 0xff, (w >>> 8) &&& 0xff, (w >>> 16) &&& 0xff, (w >>> 24) &&& 0xff]

/-- Split a word list into 16-word blocks (inputs are always a multiple of
16 words long). -/
def blocks16 : List Nat → List (List Nat)
  | w0 :: w1 :: w2 :: w3 :: w4 :: w5 :: w6 :: w7 ::
    w8 :: w9 :: w10 :: w11 :: w12 :: w13 :: w14 :: w15 :: rest =>
      [w0, w1, w2, w3, w4, w5, w6, w7, w8, w9, w10, w11, w12, w13, w14, w15] :: blocks16 rest
  | _ => []

/-- Lowercase hex digit. -/
def hexDigit (n : Nat) : Char := Char.ofNat (if n < 10 then 48 + n else 87 + n)

/-- A byte as two lowercase hex characters. -/
def byteToHex (b : Nat) : List Char := [hexDigit (b / 16), hexDigit (b % 16)]

/-- Byte list to lowercase hex string, as `WordArray.toString()` in crypto-js. -/
def bytesToHex (l : List Nat) : String := ⟨l.flatMap byteToHex⟩

/-! ## UTF-8 codec

`CryptoJS.enc.Utf8.parse` converts a JavaScript string to its UTF-8 bytes;
`CryptoJS.enc.Utf8.stringify` converts bytes back and fails on malformed
UTF-8 (crypto-js throws `Malformed UTF-8 data`). -/

/-- UTF-8 encoding of one Unicode scalar value. -/
def utf8EncodeNat (n : Nat) : List Nat :=
  if n < 0x80 then [n]
  else if n < 0x800 then [192 + n / 64, 128 + n % 64]
  else if n < 0x10000 then [224 + n / 4096, 128 + n / 64 % 64, 128 + n % 64]
  else [240 + n / 262144, 128 + n / 4096 % 64, 128 + n / 64 % 64, 128 + n % 64]

/-- UTF-8 bytes of a string. -/
def utf8Encode (s : String) : List Nat := s.data.flatMap (fun c => utf8EncodeNat c.toNat)

/-- Continuation of a two-byte UTF-8 sequence. -/
def utf8Dec2 (b0 : Nat) : List Nat → Option (Nat × List Nat)
  | b1 :: rest1 =>
    if 128 ≤ b1 ∧ b1 < 192 then some ((b0 - 192) * 64 + (b1 - 128), rest1) else none
  | _ => none

/-- Continuation of a three-byte UTF-8 sequence (rejecting overlong encodings
and surrogates). -/
def utf8Dec3 (b0 : Nat) : List Nat → Option (Nat × List Nat)
  | b1 :: b2 :: rest2 =>
    if 128 ≤ b1 ∧ b1 < 192 ∧ 128 ≤ b2 ∧ b2 < 192 then
      let n := (b0 - 224) * 4096 + (b1 - 128) * 64 + (b2 - 128)
      if 0x800 ≤ n ∧ ¬(0xd800 ≤ n ∧ n ≤ 0xdfff) then some (n, rest2) else none
    else none
  | _ => none

/-- Continuation of a four-byte UTF-8 sequence (rejecting overlong encodings
and out-of-range values). -/
def utf8Dec4 (b0 : Nat) : List Nat → Option (Nat × List Nat)
  | b1 :: b2 :: b3 :: rest3 =>
    if 128 ≤ b1 ∧ b1 < 192 ∧ 128 ≤ b2 ∧ b2 < 192 ∧ 128 ≤ b3 ∧ b3 < 192 then
      let n := (b0 - 240) * 262144 + (b1 - 128) * 4096 + (b2 - 128) * 64 + (b3 - 128)
      if 0x10000 ≤ n ∧ n < 0x110000 then some (n, rest3) else none
    else none
  | _ => none

/-- Decode one UTF-8 sequence from the front of a byte list; strict decoder. -/
def utf8DecodeOne : List Nat → Option (Nat × List Nat)
  | [] => none
  | b0 :: rest =>
    if b0 < 0x80 then some (b0, rest)
    else if b0 < 0xc2 then none
    else if b0 < 0xe0 then utf8Dec2 b0 rest
    else if b0 < 0xf0 then utf8Dec3 b0 rest
    else if b0 < 0xf5 then utf8Dec4 b0 rest
    else none

/-- Decode a whole byte list; the fuel only bounds the recursion and always
suffices, as each step consumes at least one byte. -/
def utf8DecodeLoop : Nat → List Nat → Option (List Nat)
  | _, [] => some []
  | 0, _ :: _ => none
  | fuel + 1, l =>
    match utf8DecodeOne l with
    | none => none
    | some (n, rest) => (utf8DecodeLoop fuel rest).map (n :: ·)

/-- Decode a byte list to a list of Unicode scalar values. -/
def utf8DecodeList (l : List Nat) : Option (List Nat) := utf8DecodeLoop l.length l

/-- UTF-8 decoding of a byte list to a string
(`CryptoJS.enc.Utf8.stringify`; `none` models the `Malformed UTF-8 data`
exception). -/
def utf8Decode (l : List Nat) : Option String :=
  (utf8DecodeList l).map (fun ns => ⟨ns.map Char.ofNat⟩)

/-! ## SHA-256 (`CryptoJS.SHA256`)

FIPS 180-4 SHA-256 over byte lists; the word schedule is kept most-recent-first
so all accesses are near the head of the list. -/

def sha256K : List Nat :=
  [0x428a2f98, 0x71374491, 0xb5c0fbcf, 0xe9b5dba5, 0x3956c25b, 0x59f111f1, 0x923f82a4,
   0xab1c5ed5] ++
  [0xd807aa98, 0x12835b01, 0x243185be, 0x550c7dc3, 0x72be5d74, 0x80deb1fe, 0x9bdc06a7,
   0xc19bf174] ++
  [0xe49b69c1, 0xefbe4786, 0x0fc19dc6, 0x240ca1cc, 0x2de92c6f, 0x4a7484aa, 0x5cb0a9dc,
   0x76f988da] ++
  [0x983e5152, 0xa831c66d, 0xb00327c8, 0xbf597fc7, 0xc6e00bf3, 0xd5a79147, 0x06ca6351,
   0x14292967] ++
  [0x27b70a85, 0x2e1b2138, 0x4d2c6dfc, 0x53380d13, 0x650a7354, 0x766a0abb, 0x81c2c92e,
   0x92722c85] ++
  [0xa2bfe8a1, 0xa81a664b, 0xc24b8b70, 0xc76c51a3, 0xd192e819, 0xd6990624, 0xf40e3585,
   0x106aa070] ++
  [0x19a4c116, 0x1e376c08, 0x2748774c, 0x34b0bcb5, 0x391c0cb3, 0x4ed8aa4a, 0x5b9cca4f,
   0x682e6ff3] ++
  [0x748f82ee, 0x78a5636f, 0x84c87814, 0x8cc70208, 0x90befffa, 0xa4506ceb, 0xbef9a3f7,
   0xc67178f2]

/-- SHA-2 message padding: `0x80`, zeros, 8-byte big-endian bit length. -/
def shaPad (msg : List Nat) : List Nat :=
  let len := msg.length
  let zeros := (64 - (len + 9) % 64) % 64
  msg ++ [0x80] ++ List.replicate zeros 0 ++
    (wordToBytesBE ((len * 8) >>> 32) ++ wordToBytesBE (m32 (len * 8)))

/-- Extend the (reversed) schedule by `n` words. -/
def sha256Extend : Nat → List Nat → List Nat
  | 0, acc => acc
  | n + 1, acc =>
    let w2 := acc.getD 1 0
    let w7 := acc.getD 6 0
    let w15 := acc.getD 14 0
    let w16 := acc.getD 15 0
    let s0 := (rotr 7 w15) ^^^ (rotr 18 w15) ^^^ (w15 >>> 3)
    let s1 := (rotr 17 w2) ^^^ (rotr 19 w2) ^^^ (w2 >>> 10)
    sha256Extend n (m32 (w16 + s0 + w7 + s1) :: acc)

/-- One compression round. -/
def sha256Round (st : Nat × Nat × Nat × Nat × Nat × Nat × Nat × Nat) (kw : Nat × Nat) :
    Nat × Nat × Nat × Nat × Nat × Nat × Nat × Nat :=
  let (a, b, c, d, e, f, g, h) := st
  let (k, w) := kw
  let S1 := (rotr 6 e) ^^^ (rotr 11 e) ^^^ (rotr 25 e)
  let ch := (e &&& f) ^^^ ((0xffffffff ^^^ e) &&& g)
  let t1 := m32 (h + S1 + ch + k + w)
  let S0 := (rotr 2 a) ^^^ (rotr 13 a) ^^^ (rotr 22 a)
  let mj := (a &&& b) ^^^ (a &&& c) ^^^ (b &&& c)
  let t2 := m32 (S0 + mj)
  (m32 (t1 + t2), a, b, c, m32 (d + t1), e, f, g)

/-- Compress one 16-word block into the running hash. -/
def sha256Block (h : Nat × Nat × Nat × Nat × Nat × Nat × Nat × Nat) (block : List Nat) :
    Nat × Nat × Nat × Nat × Nat × Nat × Nat × Nat :=
  let w := (sha256Extend 48 block.reverse).reverse
  let (a, b, c, d, e, f, g, hh) := (sha256K.zip w).foldl sha256Round h
  let (h0, h1, h2, h3, h4, h5, h6, h7) := h
  (m32 (h0 + a), m32 (h1 + b), m32 (h2 + c), m32 (h3 + d),
   m32 (h4 + e), m32 (h5 + f), m32 (h6 + g), m32 (h7 + hh))

/-- SHA-256 of a byte list, as bytes. -/
def sha256Bytes (msg : List Nat) : List Nat :=
  let blocks := blocks16 (bytesToWordsBE (shaPad msg))
  let (h0, h1, h2, h3, h4, h5, h6, h7) :=
    blocks.foldl sha256Block
      (0x6a09e667, 0xbb67ae85, 0x3c6ef372, 0xa54ff53a, 0x510e527f, 0x9b05688c, 0x1f83d9ab, 0x5be0cd19)
  [h0, h1, h2, h3, h4, h5, h6, h7].flatMap wordToBytesBE

/-- `CryptoJS.SHA256(s).toString()`: hex digest of the UTF-8 bytes of `s`. -/
def sha256Hex (s : String) : String := bytesToHex (sha256Bytes (utf8Encode s))

set_option maxRecDepth 100000 in
/-- The SHA-256 embedding matches the FIPS 180-4 test vectors. -/
theorem sha256_test_vectors :
    sha256Hex "abc" = "ba7816bf8f01cfea414140de5dae2223b00361a396177a9cb410ff61f20015ad" ∧
    sha256Hex "" = "e3b0c44298fc1c149afbf4c8996fb92427ae41e4649b934ca495991b7852b855" ∧
    sha256Hex "abcdbcdecdefdefgefghfghighijhijkijkljklmklmnlmnomnopnopq" =
      "248d6a61d20638b8e5c026930c3e6039a33ce45964ff2167f6ecedd419db06c1" := by
  refine ⟨?_, ?_, ?_⟩ <;> rfl

/-! ## SHA-1 and MD5

SHA-1 underlies `CryptoJS.PBKDF2` (its default hasher); MD5 underlies the
OpenSSL `EVP_BytesToKey` key derivation inside `CryptoJS.AES`'s password
mode. -/

/-- Extend the (reversed) SHA-1 schedule by `n` words. -/
def sha1Extend : Nat → List Nat → List Nat
  | 0, acc => acc
  | n + 1, acc =>
    let w3 := acc.getD 2 0
    let w8 := acc.getD 7 0
    let w14 := acc.getD 13 0
    let w16 := acc.getD 15 0
    sha1Extend n (rotl 1 (w3 ^^^ w8 ^^^ w14 ^^^ w16) :: acc)

/-- One SHA-1 round; `i` is the round index. -/
def sha1Round (st : Nat × Nat × Nat × Nat × Nat) (iw : Nat × Nat) :
    Nat × Nat × Nat × Nat × Nat :=
  let (a, b, c, d, e) := st
  let (i, w) := iw
  let f :=
    if i < 20 then (b &&& c) ||| ((0xffffffff ^^^ b) &&& d)
    else if i < 40 then b ^^^ c ^^^ d
    else if i < 60 then (b &&& c) ||| (b &&& d) ||| (c &&& d)
    else b ^^^ c ^^^ d
  let k :=
    if i < 20 then 0x5a827999
    else if i < 40 then 0x6ed9eba1
    else if i < 60 then 0x8f1bbcdc
    else 0xca62c1d6
  (m32 (rotl 5 a + f + e + k + w), a, rotl 30 b, c, d)

/-- Compress one 16-word block into the running SHA-1 hash. -/
def sha1Block (h : Nat × Nat × Nat × Nat × Nat) (block : List Nat) :
    Nat × Nat × Nat × Nat × Nat :=
  let w := (sha1Extend 64 block.reverse).reverse
  let (a, b, c, d, e) := ((List.range 80).zip w).foldl sha1Round h
  let (h0, h1, h2, h3, h4) := h
  (m32 (h0 + a), m32 (h1 + b), m32 (h2 + c), m32 (h3 + d), m32 (h4 + e))

/-- SHA-1 of a byte list, as bytes. -/
def sha1Bytes (msg : List Nat) : List Nat :=
  let blocks := blocks16 (bytesToWordsBE (shaPad msg))
  let (h0, h1, h2, h3, h4) :=
    blocks.foldl sha1Block (0x67452301, 0xefcdab89, 0x98badcfe, 0x10325476, 0xc3d2e1f0)
  [h0, h1, h2, h3, h4].flatMap wordToBytesBE

/-- MD5 per-round sine constants. -/
def md5K : List Nat :=
  [0xd76aa478, 0xe8c7b756, 0x242070db, 0xc1bdceee, 0xf57c0faf, 0x4787c62a, 0xa8304613, 0xfd469501,
   0x698098d8, 0x8b44f7af, 0xffff5bb1, 0x895cd7be, 0x6b901122, 0xfd987193, 0xa679438e, 0x49b40821,
   0xf61e2562, 0xc040b340, 0x265e5a51, 0xe9b6c7aa, 0xd62f105d, 0x02441453, 0xd8a1e681, 0xe7d3fbc8,
   0x21e1cde6, 0xc33707d6, 0xf4d50d87, 0x455a14ed, 0xa9e3e905, 0xfcefa3f8, 0x676f02d9, 0x8d2a4c8a,
   0xfffa3942, 0x8771f681, 0x6d9d6122, 0xfde5380c, 0xa4beea44, 0x4bdecfa9, 0xf6bb4b60, 0xbebfbc70,
   0x289b7ec6, 0xeaa127fa, 0xd4ef3085, 0x04881d05, 0xd9d4d039, 0xe6db99e5, 0x1fa27cf8, 0xc4ac5665,
   0xf4292244, 0x432aff97, 0xab9423a7, 0xfc93a039, 0x655b59c3, 0x8f0ccc92, 0xffeff47d, 0x85845dd1,
   0x6fa87e4f, 0xfe2ce6e0, 0xa3014314, 0x4e0811a1, 0xf7537e82, 0xbd3af235, 0x2ad7d2bb, 0xeb86d391]

/-- MD5 per-round shift amounts. -/
def md5S : List Nat :=
  [7, 12, 17, 22, 7, 12, 17, 22, 7, 12, 17, 22, 7, 12, 17, 22,
   5, 9, 14, 20, 5, 9, 14, 20, 5, 9, 14, 20, 5, 9, 14, 20,
   4, 11, 16, 23, 4, 11, 16, 23, 4, 11, 16, 23, 4, 11, 16, 23,
   6, 10, 15, 21, 6, 10, 15, 21, 6, 10, 15, 21, 6, 10, 15, 21]

/-- One MD5 operation; `i` is the operation index, `block` the 16 message
words. -/
def md5Op (block : List Nat) (st : Nat × Nat × Nat × Nat) (i : Nat) :
    Nat × Nat × Nat × Nat :=
  let (a, b, c, d) := st
  let f :=
    if i < 16 then (b &&& c) ||| ((0xffffffff ^^^ b) &&& d)
    else if i < 32 then (d &&& b) ||| ((0xffffffff ^^^ d) &&& c)
    else if i < 48 then b ^^^ c ^^^ d
    else c ^^^ (b ||| (0xffffffff ^^^ d))
  let g :=
    if i < 16 then i
    else if i < 32 then (5 * i + 1) % 16
    else if i < 48 then (3 * i + 5) % 16
    else (7 * i) % 16
  let tmp := m32 (a + f + md5K.getD i 0 + block.getD g 0)
  (d, m32 (b + rotl (md5S.getD i 0) tmp), b, c)

/-- Compress one 16-word block into the running MD5 hash. -/
def md5Block (h : Nat × Nat × Nat × Nat) (block : List Nat) : Nat × Nat × Nat × Nat :=
  let (a, b, c, d) := (List.range 64).foldl (md5Op block) h
  let (h0, h1, h2, h3) := h
  (m32 (h0 + a), m32 (h1 + b), m32 (h2 + c), m32 (h3 + d))

/-- MD5 message padding: `0x80`, zeros, 8-byte little-endian bit length. -/
def md5Pad (msg : List Nat) : List Nat :=
  let len := msg.length
  let zeros := (64 - (len + 9) % 64) % 64
  msg ++ [0x80] ++ List.replicate zeros 0 ++
    (wordToBytesLE (m32 (len * 8)) ++ wordToBytesLE ((len * 8) >>> 32))

/-- MD5 of a byte list, as bytes. -/
def md5Bytes (msg : List Nat) : List Nat :=
  let blocks := blocks16 (bytesToWordsLE (md5Pad msg))
  let (h0, h1, h2, h3) :=
    blocks.foldl md5Block (0x67452301, 0xefcdab89, 0x98badcfe, 0x10325476)
  [h0, h1, h2, h3].flatMap wordToBytesLE

set_option maxRecDepth 100000 in
/-- The SHA-1 and MD5 embeddings match the standard test vectors. -/
theorem sha1_md5_test_vectors :
    bytesToHex (sha1Bytes (utf8Encode "abc")) = "a9993e364706816aba3e25717850c26c9cd0d89d" ∧
    bytesToHex (md5Bytes (utf8Encode "abc")) = "900150983cd24fb0d6963f7d28e17f72" ∧
    bytesToHex (md5Bytes (utf8Encode "")) = "d41d8cd98f00b204e9800998ecf8427e" := by
  refine ⟨?_, ?_, ?_⟩ <;> rfl

/-! ## HMAC-SHA1 and PBKDF2 (`CryptoJS.PBKDF2`)

`CryptoJS.PBKDF2` defaults to HMAC-SHA1 as its pseudo-random function.  These
definitions are faithful executable embeddings but are only used structurally
in proofs (10 000 iterations are out of reach of kernel evaluation). -/

/-- An HMAC key, normalised to one 64-byte block. -/
def hmacNormKey (key : List Nat) : List Nat :=
  let k := if 64 < key.length then sha1Bytes key else key
  k ++ List.replicate (64 - k.length) 0

/-- HMAC-SHA1. -/
def hmacSha1 (key msg : List Nat) : List Nat :=
  let k := hmacNormKey key
  let ipad := k.map (· ^^^ 0x36)
  let opad := k.map (· ^^^ 0x5c)
  sha1Bytes (opad ++ sha1Bytes (ipad ++ msg))

/-- The `U_1 ⊕ … ⊕ U_c` accumulation of one PBKDF2 block. -/
def pbkdf2Iter (key : List Nat) (c : Nat) (u acc : List Nat) : List Nat :=
  match c with
  | 0 => acc
  | c + 1 =>
    let u' := hmacSha1 key u
    pbkdf2Iter key c u' (acc.zipWith (· ^^^ ·) u')

/-- PBKDF2-HMAC-SHA1 (RFC 2898), producing `dkLen` bytes. -/
def pbkdf2Sha1 (password salt : List Nat) (iterations dkLen : Nat) : List Nat :=
  let numBlocks := (dkLen + 19) / 20
  let block (i : Nat) : List Nat :=
    let u1 := hmacSha1 password (salt ++ wordToBytesBE (i + 1))
    pbkdf2Iter password (iterations - 1) u1 u1
  ((List.range numBlocks).flatMap block).take dkLen

/-- `CryptoJS.PBKDF2(password, salt, { keySize: 256/32, iterations }).toString()`:
hex of 32 derived bytes. -/
def pbkdf2Hex (password salt : String) (iterations : Nat) : String :=
  bytesToHex (pbkdf2Sha1 (utf8Encode password) (utf8Encode salt) iterations 32)

/-! ## AES-256 (the block cipher inside `CryptoJS.AES`)

FIPS 197 AES with a 256-bit key (crypto-js's password mode derives a 256-bit
key, selecting AES-256).  Blocks are 16-byte lists in the standard
column-major byte order; the S-boxes are packed into single `Nat` constants
(byte `i` at bits `8i..8i+7`) so lookups are constant-time in the kernel. -/

/-- The AES S-box, packed. -/
def sboxTable : Nat :=
  0x16bb54b00f2d99416842e6bf0d89a18cdf2855cee9871e9b948ed9691198f8e19e1dc186b95735610ef6034866b53e708a8bbd4b1f74dde8c6b4a61c2e2578ba08ae7a65eaf4566ca94ed58d6d37c8e779e4959162acd3c25c2406490a3a32e0db0b5ede14b8ee4688902a22dc4f816073195d643d7ea7c41744975fec130ccdd2f3ff1021dab6bcf5389d928f40a351a89f3c507f02f94585334d43fbaaefd0cf584c4a39becb6a5bb1fc20ed00d153842fe329b3d63b52a05a6e1b1a2c830975b227ebe28012079a059618c323c7041531d871f1e5a534ccf73f362693fdb7c072a49cafa2d4adf04759fa7dc982ca76abd7fe2b670130c56f6bf27b777c63

/-- The inverse AES S-box, packed. -/
def invSboxTable : Nat :=
  0x7d0c2155631469e126d677ba7e042b17619953833cbbebc8b0f52aae4d3be0a0ef9cc9939f7ae52d0d4ab519a97f51605fec8027591012b131c7078833a8dd1ff45acd78fec0db9a2079d2c64b3e56fc1bbe18aa0e62b76f89c5291d711af1476edf751ce837f9e28535ade72274ac9673e6b4f0cecff297eadc674f4111913a6b8a130103bdafc1020f3fca8f1e2cd00645b3b80558e4f70ad3bc8c00abd890849d8da75746155edab9edfd5048706c92b6655dcc5ca4d41698688664f6f87225d18b6d49a25b76b224d92866a12e084ec3fa420b954cee3d23c2a632947b54cbe9dec444438e3487ff2f9b8239e37cfbd7f3819ea340bf38a53630d56a0952

/-- Byte `b` of a packed table. -/
def tblByte (t b : Nat) : Nat := (t >>> (8 * b)) &&& 255

/-- S-box lookup. -/
def sbox (b : Nat) : Nat := tblByte sboxTable b

/-- Inverse S-box lookup. -/
def invSbox (b : Nat) : Nat := tblByte invSboxTable b

/-- Multiplication by `x` in GF(2^8) mod `x^8 + x^4 + x^3 + x + 1`. -/
def xtime (x : Nat) : Nat := if x < 128 then 2 * x else ((2 * x) &&& 255) ^^^ 27

/-- GF(2^8) multiplication by 2. -/
def g2 (x : Nat) : Nat := xtime x

/-- GF(2^8) multiplication by 3. -/
def g3 (x : Nat) : Nat := xtime x ^^^ x

/-- GF(2^8) multiplication by 9. -/
def g9 (x : Nat) : Nat := xtime (xtime (xtime x)) ^^^ x

/-- GF(2^8) multiplication by 11. -/
def g11 (x : Nat) : Nat := xtime (xtime (xtime x)) ^^^ xtime x ^^^ x

/-- GF(2^8) multiplication by 13. -/
def g13 (x : Nat) : Nat := xtime (xtime (xtime x)) ^^^ xtime (xtime x) ^^^ x

/-- GF(2^8) multiplication by 14. -/
def g14 (x : Nat) : Nat := xtime (xtime (xtime x)) ^^^ xtime (xtime x) ^^^ xtime x

/-- SubBytes. -/
def subBytes (s : List Nat) : List Nat := s.map sbox

/-- InvSubBytes. -/
def invSubBytes (s : List Nat) : List Nat := s.map invSbox

/-- ShiftRows (column-major byte order). -/
def shiftRows : List Nat → List Nat
  | [a0, a1, a2, a3, a4, a5, a6, a7, a8, a9, a10, a11, a12, a13, a14, a15] =>
    [a0, a5, a10, a15, a4, a9, a14, a3, a8, a13, a2, a7, a12, a1, a6, a11]
  | s => s

/-- InvShiftRows. -/
def invShiftRows : List Nat → List Nat
  | [a0, a1, a2, a3, a4, a5, a6, a7, a8, a9, a10, a11, a12, a13, a14, a15] =>
    [a0, a13, a10, a7, a4, a1, a14, a11, a8, a5, a2, a15, a12, a9, a6, a3]
  | s => s

/-- One MixColumns column. -/
def mixCol (a b c d : Nat) : List Nat :=
  [g2 a ^^^ g3 b ^^^ c ^^^ d,
   a ^^^ g2 b ^^^ g3 c ^^^ d,
   a ^^^ b ^^^ g2 c ^^^ g3 d,
   g3 a ^^^ b ^^^ c ^^^ g2 d]

/-- One InvMixColumns column. -/
def invMixCol (a b c d : Nat) : List Nat :=
  [g14 a ^^^ g11 b ^^^ g13 c ^^^ g9 d,
   g9 a ^^^ g14 b ^^^ g11 c ^^^ g13 d,
   g13 a ^^^ g9 b ^^^ g14 c ^^^ g11 d,
   g11 a ^^^ g13 b ^^^ g9 c ^^^ g14 d]

/-- MixColumns. -/
def mixColumns : List Nat → List Nat
  | [a0, a1, a2, a3, a4, a5, a6, a7, a8, a9, a10, a11, a12, a13, a14, a15] =>
    mixCol a0 a1 a2 a3 ++ mixCol a4 a5 a6 a7 ++ mixCol a8 a9 a10 a11 ++ mixCol a12 a13 a14 a15
  | s => s

/-- InvMixColumns. -/
def invMixColumns : List Nat → List Nat
  | [a0, a1, a2, a3, a4, a5, a6, a7, a8, a9, a10, a11, a12, a13, a14, a15] =>
    invMixCol a0 a1 a2 a3 ++ invMixCol a4 a5 a6 a7 ++
      invMixCol a8 a9 a10 a11 ++ invMixCol a12 a13 a14 a15
  | s => s

/-- AddRoundKey. -/
def addRoundKey (k s : List Nat) : List Nat := s.zipWith (· ^^^ ·) k

/-- SubWord of the key schedule. -/
def subWord (w : Nat) : Nat :=
  (sbox ((w >>> 24) &&& 255)) <<< 24 ||| (sbox ((w >>> 16) &&& 255)) <<< 16 |||
    (sbox ((w >>> 8) &&& 255)) <<< 8 ||| sbox (w &&& 255)

/-- RotWord of the key schedule. -/
def rotWord (w : Nat) : Nat := ((w <<< 8) &&& 0xffffffff) ||| (w >>> 24)

/-- Round constant for key-schedule step `i/8` (1-based). -/
def rconVal : Nat → Nat
  | 1 => 0x01000000
  | 2 => 0x02000000
  | 3 => 0x04000000
  | 4 => 0x08000000
  | 5 => 0x10000000
  | 6 => 0x20000000
  | 7 => 0x40000000
  | _ => 0

/-- AES-256 key expansion; `acc` holds the words generated so far, most recent
first, and `i` is the absolute word index. -/
def aesExpandFrom (i : Nat) : Nat → List Nat → List Nat
  | 0, acc => acc
  | fuel + 1, acc =>
    let wm1 := acc.getD 0 0
    let wm8 := acc.getD 7 0
    let t :=
      if i % 8 = 0 then subWord (rotWord wm1) ^^^ rconVal (i / 8)
      else if i % 8 = 4 then subWord wm1
      else wm1
    aesExpandFrom (i + 1) fuel ((wm8 ^^^ t) :: acc)

/-- The 60 words of the AES-256 key schedule from a 32-byte key. -/
def aesKeyWords (key : List Nat) : List Nat :=
  (aesExpandFrom 8 52 (bytesToWordsBE key).reverse).reverse

/-- Group schedule words into 16-byte round keys. -/
def words4ToBytes : List Nat → List (List Nat)
  | w0 :: w1 :: w2 :: w3 :: rest =>
    (wordToBytesBE w0 ++ wordToBytesBE w1 ++ wordToBytesBE w2 ++ wordToBytesBE w3) ::
      words4ToBytes rest
  | _ => []

/-- The 15 round keys of AES-256. -/
def roundKeys (key : List Nat) : List (List Nat) := words4ToBytes (aesKeyWords key)

/-- The middle encryption rounds. -/
def aesMidRounds : List (List Nat) → List Nat → List Nat
  | [], s => s
  | k :: ks, s => aesMidRounds ks (addRoundKey k (mixColumns (shiftRows (subBytes s))))

/-- The middle decryption rounds (keys already reversed). -/
def aesInvMidRounds : List (List Nat) → List Nat → List Nat
  | [], s => s
  | k :: ks, s => aesInvMidRounds ks (invSubBytes (invShiftRows (invMixColumns (addRoundKey k s))))

/-- AES encryption of one block given the split round keys. -/
def aesEncryptRounds (k0 : List Nat) (mid : List (List Nat)) (kl s : List Nat) : List Nat :=
  addRoundKey kl (shiftRows (subBytes (aesMidRounds mid (addRoundKey k0 s))))

/-- AES decryption of one block given the split round keys. -/
def aesDecryptRounds (k0 : List Nat) (mid : List (List Nat)) (kl s : List Nat) : List Nat :=
  addRoundKey k0 (aesInvMidRounds mid.reverse (invSubBytes (invShiftRows (addRoundKey kl s))))

/-- AES-256 block encryption. -/
def aesEncryptBlock (key blk : List Nat) : List Nat :=
  let ks := roundKeys key
  aesEncryptRounds (ks.headD []) ((ks.drop 1).dropLast) (ks.getLastD []) blk

/-- AES-256 block decryption. -/
def aesDecryptBlock (key blk : List Nat) : List Nat :=
  let ks := roundKeys key
  aesDecryptRounds (ks.headD []) ((ks.drop 1).dropLast) (ks.getLastD []) blk

set_option maxRecDepth 100000 in
/-- The AES-256 embedding matches the FIPS 197 appendix C.3 test vector. -/
theorem aes256_test_vector :
    aesEncryptBlock
      [0x00, 0x01, 0x02, 0x03, 0x04, 0x05, 0x06, 0x07, 0x08, 0x09, 0x0a, 0x0b, 0x0c, 0x0d, 0x0e, 0x0f,
       0x10, 0x11, 0x12, 0x13, 0x14, 0x15, 0x16, 0x17, 0x18, 0x19, 0x1a, 0x1b, 0x1c, 0x1d, 0x1e, 0x1f]
      [0x00, 0x11, 0x22, 0x33, 0x44, 0x55, 0x66, 0x77, 0x88, 0x99, 0xaa, 0xbb, 0xcc, 0xdd, 0xee, 0xff] =
    [0x8e, 0xa2, 0xb7, 0xca, 0x51, 0x67, 0x45, 0xbf, 0xea, 0xfc, 0x49, 0x90, 0x4b, 0x49, 0x60, 0x89] ∧
    aesDecryptBlock
      [0x00, 0x01, 0x02, 0x03, 0x04, 0x05, 0x06, 0x07, 0x08, 0x09, 0x0a, 0x0b, 0x0c, 0x0d, 0x0e, 0x0f,
       0x10, 0x11, 0x12, 0x13, 0x14, 0x15, 0x16, 0x17, 0x18, 0x19, 0x1a, 0x1b, 0x1c, 0x1d, 0x1e, 0x1f]
      [0x8e, 0xa2, 0xb7, 0xca, 0x51, 0x67, 0x45, 0xbf, 0xea, 0xfc, 0x49, 0x90, 0x4b, 0x49, 0x60, 0x89] =
    [0x00, 0x11, 0x22, 0x33, 0x44, 0x55, 0x66, 0x77, 0x88, 0x99, 0xaa, 0xbb, 0xcc, 0xdd, 0xee, 0xff] := by
  exact ⟨rfl, rfl⟩

/-! ## AES-256 decryption inverts encryption

The round operations are proved inverse pairwise; the GF(2^8) facts are
established by bounded checks over `List.range`. -/

instance : Std.Associative (fun (a b : Nat) => a ^^^ b) := ⟨Nat.xor_assoc⟩
instance : Std.Commutative (fun (a b : Nat) => a ^^^ b) := ⟨Nat.xor_comm⟩

/-- Boolean check over `List.range n` to bounded quantification. -/
theorem range_all {n : Nat} {f : Nat → Bool} (h : ((List.range n).all f) = true) :
    ∀ x < n, f x = true := fun x hx => List.all_eq_true.mp h x (List.mem_range.mpr hx)

/-- Bytes are closed under xor. -/
theorem xor_lt {x y : Nat} (hx : x < 256) (hy : y < 256) : x ^^^ y < 256 := by
  simpa using Nat.xor_lt_two_pow (n := 8) (by simpa using hx) (by simpa using hy)

/-- Table lookups are bytes. -/
theorem tblByte_lt (t b : Nat) : tblByte t b < 256 :=
  Nat.lt_succ_of_le (Nat.and_le_right)

/-- The S-box produces bytes. -/
theorem sbox_lt (b : Nat) : sbox b < 256 := tblByte_lt _ _

/-- The inverse S-box produces bytes. -/
theorem invSbox_lt (b : Nat) : invSbox b < 256 := tblByte_lt _ _

/-- `xtime` preserves bytes. -/
theorem xtime_lt {x : Nat} (h : x < 256) : xtime x < 256 := by
  unfold xtime
  split
  · omega
  · exact xor_lt (Nat.lt_succ_of_le Nat.and_le_right) (by norm_num)

set_option maxRecDepth 100000 in
/-- The inverse S-box inverts the S-box on bytes. -/
theorem invSbox_sbox {b : Nat} (h : b < 256) : invSbox (sbox b) = b := by
  have := range_all
    (n := 256) (f := fun b => invSbox (sbox b) == b)
    (by decide) b h
  simpa using this

set_option maxRecDepth 1000000 in
set_option maxHeartbeats 4000000 in
/-- `xtime` is GF(2)-linear on bytes. -/
theorem xtime_xor {x y : Nat} (hx : x < 256) (hy : y < 256) :
    xtime (x ^^^ y) = xtime x ^^^ xtime y := by
  have := range_all
    (n := 256) (f := fun x => (List.range 256).all fun y =>
      xtime (x ^^^ y) == xtime x ^^^ xtime y)
    (by decide) x hx
  have := range_all (this) y hy
  simpa using this

/-- GF(2)-linearity of multiplication by 9. -/
theorem g9_xor {x y : Nat} (hx : x < 256) (hy : y < 256) :
    g9 (x ^^^ y) = g9 x ^^^ g9 y := by
  unfold g9
  rw [xtime_xor hx hy, xtime_xor (xtime_lt hx) (xtime_lt hy),
    xtime_xor (xtime_lt (xtime_lt hx)) (xtime_lt (xtime_lt hy))]
  ac_rfl

/-- GF(2)-linearity of multiplication by 11. -/
theorem g11_xor {x y : Nat} (hx : x < 256) (hy : y < 256) :
    g11 (x ^^^ y) = g11 x ^^^ g11 y := by
  unfold g11
  rw [xtime_xor hx hy, xtime_xor (xtime_lt hx) (xtime_lt hy),
    xtime_xor (xtime_lt (xtime_lt hx)) (xtime_lt (xtime_lt hy))]
  ac_rfl

/-- GF(2)-linearity of multiplication by 13. -/
theorem g13_xor {x y : Nat} (hx : x < 256) (hy : y < 256) :
    g13 (x ^^^ y) = g13 x ^^^ g13 y := by
  unfold g13
  rw [xtime_xor hx hy, xtime_xor (xtime_lt hx) (xtime_lt hy),
    xtime_xor (xtime_lt (xtime_lt hx)) (xtime_lt (xtime_lt hy))]
  ac_rfl

/-- GF(2)-linearity of multiplication by 14. -/
theorem g14_xor {x y : Nat} (hx : x < 256) (hy : y < 256) :
    g14 (x ^^^ y) = g14 x ^^^ g14 y := by
  unfold g14
  rw [xtime_xor hx hy, xtime_xor (xtime_lt hx) (xtime_lt hy),
    xtime_xor (xtime_lt (xtime_lt hx)) (xtime_lt (xtime_lt hy))]
  ac_rfl

/-- Distribute a GF(2)-linear byte map over a four-term xor. -/
theorem dist4 {g : Nat → Nat}
    (hdist : ∀ {x y : Nat}, x < 256 → y < 256 → g (x ^^^ y) = g x ^^^ g y)
    {w x y z : Nat} (hw : w < 256) (hx : x < 256) (hy : y < 256) (hz : z < 256) :
    g (w ^^^ x ^^^ y ^^^ z) = g w ^^^ g x ^^^ g y ^^^ g z := by
  rw [hdist (xor_lt (xor_lt hw hx) hy) hz, hdist (xor_lt hw hx) hy, hdist hw hx]

set_option maxRecDepth 1000000 in
/-- Diagonal entry of `invM · M` over GF(2^8): `14·2 ⊕ 11 ⊕ 13 ⊕ 9·3 = 1`. -/
theorem colA {x : Nat} (h : x < 256) : g14 (g2 x) ^^^ g11 x ^^^ g13 x ^^^ g9 (g3 x) = x := by
  have := range_all
    (n := 256) (f := fun x => g14 (g2 x) ^^^ g11 x ^^^ g13 x ^^^ g9 (g3 x) == x)
    (by decide) x h
  simpa using this

set_option maxRecDepth 1000000 in
/-- Off-diagonal entry of `invM · M`: `14·3 ⊕ 11·2 ⊕ 13 ⊕ 9 = 0`. -/
theorem colB {x : Nat} (h : x < 256) : g14 (g3 x) ^^^ g11 (g2 x) ^^^ g13 x ^^^ g9 x = 0 := by
  have := range_all
    (n := 256) (f := fun x => g14 (g3 x) ^^^ g11 (g2 x) ^^^ g13 x ^^^ g9 x == 0)
    (by decide) x h
  simpa using this

set_option maxRecDepth 1000000 in
/-- Off-diagonal entry of `invM · M`: `14 ⊕ 11·3 ⊕ 13·2 ⊕ 9 = 0`. -/
theorem colC {x : Nat} (h : x < 256) : g14 x ^^^ g11 (g3 x) ^^^ g13 (g2 x) ^^^ g9 x = 0 := by
  have := range_all
    (n := 256) (f := fun x => g14 x ^^^ g11 (g3 x) ^^^ g13 (g2 x) ^^^ g9 x == 0)
    (by decide) x h
  simpa using this

set_option maxRecDepth 1000000 in
/-- Off-diagonal entry of `invM · M`: `14 ⊕ 11 ⊕ 13·3 ⊕ 9·2 = 0`. -/
theorem colD {x : Nat} (h : x < 256) : g14 x ^^^ g11 x ^^^ g13 (g3 x) ^^^ g9 (g2 x) = 0 := by
  have := range_all
    (n := 256) (f := fun x => g14 x ^^^ g11 x ^^^ g13 (g3 x) ^^^ g9 (g2 x) == 0)
    (by decide) x h
  simpa using this

/-- `g2` preserves bytes. -/
theorem g2_lt {x : Nat} (h : x < 256) : g2 x < 256 := xtime_lt h

/-- `g3` preserves bytes. -/
theorem g3_lt {x : Nat} (h : x < 256) : g3 x < 256 := xor_lt (xtime_lt h) h

/-- `invMixCol` inverts `mixCol` on bytes. -/
theorem invMixCol_mixCol {a b c d : Nat}
    (ha : a < 256) (hb : b < 256) (hc : c < 256) (hd : d < 256) :
    invMixCol (g2 a ^^^ g3 b ^^^ c ^^^ d) (a ^^^ g2 b ^^^ g3 c ^^^ d)
      (a ^^^ b ^^^ g2 c ^^^ g3 d) (g3 a ^^^ b ^^^ c ^^^ g2 d) = [a, b, c, d] := by
  have h2a := g2_lt ha; have h2b := g2_lt hb; have h2c := g2_lt hc; have h2d := g2_lt hd
  have h3a := g3_lt ha; have h3b := g3_lt hb; have h3c := g3_lt hc; have h3d := g3_lt hd
  unfold invMixCol
  rw [dist4 g14_xor h2a h3b hc hd, dist4 g11_xor ha h2b h3c hd,
    dist4 g13_xor ha hb h2c h3d, dist4 g9_xor h3a hb hc h2d]
  have e0 : g14 (g2 a) ^^^ g14 (g3 b) ^^^ g14 c ^^^ g14 d ^^^
      (g11 a ^^^ g11 (g2 b) ^^^ g11 (g3 c) ^^^ g11 d) ^^^
      (g13 a ^^^ g13 b ^^^ g13 (g2 c) ^^^ g13 (g3 d)) ^^^
      (g9 (g3 a) ^^^ g9 b ^^^ g9 c ^^^ g9 (g2 d)) =
      (g14 (g2 a) ^^^ g11 a ^^^ g13 a ^^^ g9 (g3 a)) ^^^
      (g14 (g3 b) ^^^ g11 (g2 b) ^^^ g13 b ^^^ g9 b) ^^^
      (g14 c ^^^ g11 (g3 c) ^^^ g13 (g2 c) ^^^ g9 c) ^^^
      (g14 d ^^^ g11 d ^^^ g13 (g3 d) ^^^ g9 (g2 d)) := by ac_rfl
  rw [dist4 g9_xor h2a h3b hc hd, dist4 g14_xor ha h2b h3c hd,
    dist4 g11_xor ha hb h2c h3d, dist4 g13_xor h3a hb hc h2d]
  have e1 : g9 (g2 a) ^^^ g9 (g3 b) ^^^ g9 c ^^^ g9 d ^^^
      (g14 a ^^^ g14 (g2 b) ^^^ g14 (g3 c) ^^^ g14 d) ^^^
      (g11 a ^^^ g11 b ^^^ g11 (g2 c) ^^^ g11 (g3 d)) ^^^
      (g13 (g3 a) ^^^ g13 b ^^^ g13 c ^^^ g13 (g2 d)) =
      (g14 a ^^^ g11 a ^^^ g13 (g3 a) ^^^ g9 (g2 a)) ^^^
      (g14 (g2 b) ^^^ g11 b ^^^ g13 b ^^^ g9 (g3 b)) ^^^
      (g14 (g3 c) ^^^ g11 (g2 c) ^^^ g13 c ^^^ g9 c) ^^^
      (g14 d ^^^ g11 (g3 d) ^^^ g13 (g2 d) ^^^ g9 d) := by ac_rfl
  rw [dist4 g13_xor h2a h3b hc hd, dist4 g9_xor ha h2b h3c hd,
    dist4 g14_xor ha hb h2c h3d, dist4 g11_xor h3a hb hc h2d]
  have e2 : g13 (g2 a) ^^^ g13 (g3 b) ^^^ g13 c ^^^ g13 d ^^^
      (g9 a ^^^ g9 (g2 b) ^^^ g9 (g3 c) ^^^ g9 d) ^^^
      (g14 a ^^^ g14 b ^^^ g14 (g2 c) ^^^ g14 (g3 d)) ^^^
      (g11 (g3 a) ^^^ g11 b ^^^ g11 c ^^^ g11 (g2 d)) =
      (g14 a ^^^ g11 (g3 a) ^^^ g13 (g2 a) ^^^ g9 a) ^^^
      (g14 b ^^^ g11 b ^^^ g13 (g3 b) ^^^ g9 (g2 b)) ^^^
      (g14 (g2 c) ^^^ g11 c ^^^ g13 c ^^^ g9 (g3 c)) ^^^
      (g14 (g3 d) ^^^ g11 (g2 d) ^^^ g13 d ^^^ g9 d) := by ac_rfl
  rw [dist4 g11_xor h2a h3b hc hd, dist4 g13_xor ha h2b h3c hd,
    dist4 g9_xor ha hb h2c h3d, dist4 g14_xor h3a hb hc h2d]
  have e3 : g11 (g2 a) ^^^ g11 (g3 b) ^^^ g11 c ^^^ g11 d ^^^
      (g13 a ^^^ g13 (g2 b) ^^^ g13 (g3 c) ^^^ g13 d) ^^^
      (g9 a ^^^ g9 b ^^^ g9 (g2 c) ^^^ g9 (g3 d)) ^^^
      (g14 (g3 a) ^^^ g14 b ^^^ g14 c ^^^ g14 (g2 d)) =
      (g14 (g3 a) ^^^ g11 (g2 a) ^^^ g13 a ^^^ g9 a) ^^^
      (g14 b ^^^ g11 (g3 b) ^^^ g13 (g2 b) ^^^ g9 b) ^^^
      (g14 c ^^^ g11 c ^^^ g13 (g3 c) ^^^ g9 (g2 c)) ^^^
      (g14 (g2 d) ^^^ g11 d ^^^ g13 d ^^^ g9 (g3 d)) := by ac_rfl
  rw [e0, e1, e2, e3]
  rw [colA ha, colB hb, colC hc, colD hd,
    colD ha, colA hb, colB hc, colC hd,
    colC ha, colD hb, colA hc, colB hd,
    colB ha, colC hb, colD hc, colA hd]
  simp [Nat.xor_zero, Nat.zero_xor]

/-- A 16-element list is a 16-tuple. -/
theorem exists16 {s : List Nat} (h : s.length = 16) :
    ∃ a0 a1 a2 a3 a4 a5 a6 a7 a8 a9 a10 a11 a12 a13 a14 a15,
      s = [a0, a1, a2, a3, a4, a5, a6, a7, a8, a9, a10, a11, a12, a13, a14, a15] := by
  rcases s with _ | ⟨a0, _ | ⟨a1, _ | ⟨a2, _ | ⟨a3, _ | ⟨a4, _ | ⟨a5, _ | ⟨a6, _ | ⟨a7,
    _ | ⟨a8, _ | ⟨a9, _ | ⟨a10, _ | ⟨a11, _ | ⟨a12, _ | ⟨a13, _ | ⟨a14, _ | ⟨a15,
    _ | ⟨a16, rest⟩⟩⟩⟩⟩⟩⟩⟩⟩⟩⟩⟩⟩⟩⟩⟩⟩
  all_goals simp only [List.length_cons, List.length_nil] at h
  all_goals try omega
  exact ⟨a0, a1, a2, a3, a4, a5, a6, a7, a8, a9, a10, a11, a12, a13, a14, a15, rfl⟩

/-- AddRoundKey is an involution. -/
theorem addRoundKey_addRoundKey : ∀ (s k : List Nat), s.length ≤ k.length →
    addRoundKey k (addRoundKey k s) = s := by
  intro s
  induction s with
  | nil => intro k _; rfl
  | cons x s ih =>
    intro k hk
    cases k with
    | nil => simp at hk
    | cons y k =>
      simp only [addRoundKey, List.zipWith_cons_cons] at *
      exact congrArg₂ (· :: ·) (Nat.xor_cancel_right y x) (ih k (by simpa using hk))

/-- SubBytes preserves length. -/
theorem subBytes_length (s : List Nat) : (subBytes s).length = s.length := List.length_map _ _

/-- SubBytes produces bytes. -/
theorem subBytes_ok (s : List Nat) : BytesOk (subBytes s) := by
  intro b hb
  obtain ⟨x, _, rfl⟩ := List.mem_map.mp hb
  exact sbox_lt x

/-- InvSubBytes inverts SubBytes on byte states. -/
theorem invSubBytes_subBytes {s : List Nat} (h : BytesOk s) : invSubBytes (subBytes s) = s := by
  unfold invSubBytes subBytes
  rw [List.map_map]
  exact (List.map_congr_left (fun a ha => invSbox_sbox (h a ha))).trans (List.map_id s)

/-- ShiftRows preserves length-16 states. -/
theorem shiftRows_length {s : List Nat} (h : s.length = 16) : (shiftRows s).length = 16 := by
  obtain ⟨a0, a1, a2, a3, a4, a5, a6, a7, a8, a9, a10, a11, a12, a13, a14, a15, rfl⟩ := exists16 h
  rfl

/-- ShiftRows preserves byte states. -/
theorem shiftRows_ok {s : List Nat} (h16 : s.length = 16) (h : BytesOk s) :
    BytesOk (shiftRows s) := by
  obtain ⟨a0, a1, a2, a3, a4, a5, a6, a7, a8, a9, a10, a11, a12, a13, a14, a15, rfl⟩ := exists16 h16
  simp only [BytesOk, shiftRows] at h ⊢
  intro b hb
  simp only [List.mem_cons, List.not_mem_nil, or_false] at hb
  rcases hb with rfl | rfl | rfl | rfl | rfl | rfl | rfl | rfl | rfl | rfl | rfl | rfl | rfl | rfl | rfl | rfl <;>
    exact h _ (by simp)

/-- InvShiftRows inverts ShiftRows on 16-byte states. -/
theorem invShiftRows_shiftRows {s : List Nat} (h : s.length = 16) :
    invShiftRows (shiftRows s) = s := by
  obtain ⟨a0, a1, a2, a3, a4, a5, a6, a7, a8, a9, a10, a11, a12, a13, a14, a15, rfl⟩ := exists16 h
  rfl

/-- `g9` preserves bytes. -/
theorem g9_lt {x : Nat} (h : x < 256) : g9 x < 256 :=
  xor_lt (xtime_lt (xtime_lt (xtime_lt h))) h

/-- `g11` preserves bytes. -/
theorem g11_lt {x : Nat} (h : x < 256) : g11 x < 256 :=
  xor_lt (xor_lt (xtime_lt (xtime_lt (xtime_lt h))) (xtime_lt h)) h

/-- `g13` preserves bytes. -/
theorem g13_lt {x : Nat} (h : x < 256) : g13 x < 256 :=
  xor_lt (xor_lt (xtime_lt (xtime_lt (xtime_lt h))) (xtime_lt (xtime_lt h))) h

/-- `g14` preserves bytes. -/
theorem g14_lt {x : Nat} (h : x < 256) : g14 x < 256 :=
  xor_lt (xor_lt (xtime_lt (xtime_lt (xtime_lt h))) (xtime_lt (xtime_lt h))) (xtime_lt h)

/-- A MixColumns column output consists of bytes. -/
theorem mixCol_ok {a b c d : Nat} (ha : a < 256) (hb : b < 256) (hc : c < 256) (hd : d < 256) :
    ∀ x ∈ mixCol a b c d, x < 256 := by
  simp only [mixCol, List.mem_cons, List.not_mem_nil, or_false]
  rintro x (rfl | rfl | rfl | rfl)
  · exact xor_lt (xor_lt (xor_lt (g2_lt ha) (g3_lt hb)) hc) hd
  · exact xor_lt (xor_lt (xor_lt ha (g2_lt hb)) (g3_lt hc)) hd
  · exact xor_lt (xor_lt (xor_lt ha hb) (g2_lt hc)) (g3_lt hd)
  · exact xor_lt (xor_lt (xor_lt (g3_lt ha) hb) hc) (g2_lt hd)

/-- MixColumns preserves length-16 states. -/
theorem mixColumns_length {s : List Nat} (h : s.length = 16) : (mixColumns s).length = 16 := by
  obtain ⟨a0, a1, a2, a3, a4, a5, a6, a7, a8, a9, a10, a11, a12, a13, a14, a15, rfl⟩ := exists16 h
  rfl

/-- MixColumns preserves byte states. -/
theorem mixColumns_ok {s : List Nat} (h16 : s.length = 16) (h : BytesOk s) :
    BytesOk (mixColumns s) := by
  obtain ⟨a0, a1, a2, a3, a4, a5, a6, a7, a8, a9, a10, a11, a12, a13, a14, a15, rfl⟩ := exists16 h16
  simp only [BytesOk, List.mem_cons, List.not_mem_nil, or_false] at h
  have hb : ∀ i ∈ [a0, a1, a2, a3, a4, a5, a6, a7, a8, a9, a10, a11, a12, a13, a14, a15],
      i < 256 := fun i hi => h i (by simpa using hi)
  simp only [mixColumns]
  intro x hx
  simp only [List.mem_append] at hx
  rcases hx with ((hx | hx) | hx) | hx
  · exact mixCol_ok (hb _ (by simp)) (hb _ (by simp)) (hb _ (by simp)) (hb _ (by simp)) x hx
  · exact mixCol_ok (hb _ (by simp)) (hb _ (by simp)) (hb _ (by simp)) (hb _ (by simp)) x hx
  · exact mixCol_ok (hb _ (by simp)) (hb _ (by simp)) (hb _ (by simp)) (hb _ (by simp)) x hx
  · exact mixCol_ok (hb _ (by simp)) (hb _ (by simp)) (hb _ (by simp)) (hb _ (by simp)) x hx

/-- InvMixColumns inverts MixColumns on 16-byte states. -/
theorem invMixColumns_mixColumns {s : List Nat} (h16 : s.length = 16) (hok : BytesOk s) :
    invMixColumns (mixColumns s) = s := by
  obtain ⟨a0, a1, a2, a3, a4, a5, a6, a7, a8, a9, a10, a11, a12, a13, a14, a15, rfl⟩ := exists16 h16
  simp only [BytesOk, List.mem_cons, List.not_mem_nil, or_false] at hok
  have hb : ∀ i ∈ [a0, a1, a2, a3, a4, a5, a6, a7, a8, a9, a10, a11, a12, a13, a14, a15],
      i < 256 := fun i hi => hok i (by simpa using hi)
  show invMixColumns
      (mixCol a0 a1 a2 a3 ++ (mixCol a4 a5 a6 a7 ++ (mixCol a8 a9 a10 a11 ++ mixCol a12 a13 a14 a15))) = _
  simp only [mixCol, List.cons_append, List.nil_append, invMixColumns]
  rw [invMixCol_mixCol (hb _ (by simp)) (hb _ (by simp)) (hb _ (by simp)) (hb _ (by simp)),
    invMixCol_mixCol (hb _ (by simp)) (hb _ (by simp)) (hb _ (by simp)) (hb _ (by simp)),
    invMixCol_mixCol (hb _ (by simp)) (hb _ (by simp)) (hb _ (by simp)) (hb _ (by simp)),
    invMixCol_mixCol (hb _ (by simp)) (hb _ (by simp)) (hb _ (by simp)) (hb _ (by simp))]
  rfl

/-- A well-formed AES state: 16 bytes. -/
def Good16 (s : List Nat) : Prop := s.length = 16 ∧ BytesOk s

/-- Round keys of the schedule are well-formed. -/
theorem words4ToBytes_mem : ∀ (l : List Nat), ∀ k ∈ words4ToBytes l, Good16 k := by
  intro l
  induction l using words4ToBytes.induct with
  | case1 w0 w1 w2 w3 rest ih =>
    intro k hk
    simp only [words4ToBytes, List.mem_cons] at hk
    rcases hk with rfl | hk
    · refine ⟨rfl, ?_⟩
      intro b hb
      simp only [wordToBytesBE, List.cons_append, List.nil_append, List.mem_cons,
        List.not_mem_nil, or_false] at hb
      rcases hb with rfl | rfl | rfl | rfl | rfl | rfl | rfl | rfl |
        rfl | rfl | rfl | rfl | rfl | rfl | rfl | rfl <;>
        exact Nat.lt_succ_of_le Nat.and_le_right
    · exact ih k hk
  | case2 l h =>
    intro k hk
    rw [words4ToBytes] at hk
    · simp at hk
    · exact h

/-- Members of a zipped xor come from the two lists. -/
theorem mem_zipWith_xor : ∀ {s k : List Nat} {b : Nat},
    b ∈ List.zipWith (· ^^^ ·) s k → ∃ x y, x ∈ s ∧ y ∈ k ∧ b = x ^^^ y := by
  intro s
  induction s with
  | nil => intro k b hb; simp at hb
  | cons x s ih =>
    intro k b hb
    cases k with
    | nil => simp at hb
    | cons y k =>
      rcases List.mem_cons.mp hb with rfl | hb
      · exact ⟨x, y, by simp, by simp, rfl⟩
      · obtain ⟨x', y', hx, hy, rfl⟩ := ih hb
        exact ⟨x', y', by simp [hx], by simp [hy], rfl⟩

/-- AddRoundKey with a 16-byte key maps `Good16` to `Good16`. -/
theorem addRoundKey_good {k s : List Nat} (hk : Good16 k) (hs : Good16 s) :
    Good16 (addRoundKey k s) := by
  constructor
  · simp [addRoundKey, List.length_zipWith, hk.1, hs.1]
  · intro b hb
    obtain ⟨x, y, hx, hy, rfl⟩ := mem_zipWith_xor hb
    exact xor_lt (hs.2 x hx) (hk.2 y hy)

/-- One encryption round maps `Good16` to `Good16`. -/
theorem round_good {k s : List Nat} (hk : Good16 k) (hs : Good16 s) :
    Good16 (addRoundKey k (mixColumns (shiftRows (subBytes s)))) := by
  have h1 : (subBytes s).length = 16 := by rw [subBytes_length, hs.1]
  have h2 := shiftRows_length h1
  have h3 := shiftRows_ok h1 (subBytes_ok s)
  exact addRoundKey_good hk ⟨mixColumns_length h2, mixColumns_ok h2 h3⟩

/-- The middle rounds map `Good16` to `Good16`. -/
theorem aesMidRounds_good : ∀ (ks : List (List Nat)) (s : List Nat),
    (∀ k ∈ ks, Good16 k) → Good16 s → Good16 (aesMidRounds ks s) := by
  intro ks
  induction ks with
  | nil => intro s _ hs; exact hs
  | cons k ks ih =>
    intro s hks hs
    exact ih _ (fun k hk => hks k (List.mem_cons_of_mem _ hk))
      (round_good (hks k (List.mem_cons_self k ks)) hs)

/-- The inverse middle rounds distribute over append. -/
theorem aesInvMidRounds_append : ∀ (l1 l2 : List (List Nat)) (s : List Nat),
    aesInvMidRounds (l1 ++ l2) s = aesInvMidRounds l2 (aesInvMidRounds l1 s) := by
  intro l1
  induction l1 with
  | nil => intro l2 s; rfl
  | cons k l1 ih => intro l2 s; exact ih l2 _

/-- One inverse round undoes one round. -/
theorem invRound_round {k s : List Nat} (hk : Good16 k) (hs : Good16 s) :
    invSubBytes (invShiftRows (invMixColumns
      (addRoundKey k (addRoundKey k (mixColumns (shiftRows (subBytes s))))))) = s := by
  have h1 : (subBytes s).length = 16 := by rw [subBytes_length, hs.1]
  have h2 := shiftRows_length h1
  have h3 := shiftRows_ok h1 (subBytes_ok s)
  rw [addRoundKey_addRoundKey _ _ (by rw [mixColumns_length h2, hk.1]),
    invMixColumns_mixColumns h2 h3, invShiftRows_shiftRows h1, invSubBytes_subBytes hs.2]

/-- The inverse middle rounds, on the reversed key list, undo the middle
rounds. -/
theorem aesInvMidRounds_aesMidRounds : ∀ (ks : List (List Nat)) (s : List Nat),
    (∀ k ∈ ks, Good16 k) → Good16 s →
    aesInvMidRounds ks.reverse (aesMidRounds ks s) = s := by
  intro ks
  induction ks with
  | nil => intro s _ _; rfl
  | cons k ks ih =>
    intro s hks hs
    have hk := hks k (List.mem_cons_self k ks)
    have hks' : ∀ k ∈ ks, Good16 k := fun k hk => hks k (List.mem_cons_of_mem _ hk)
    rw [List.reverse_cons, aesInvMidRounds_append]
    show aesInvMidRounds [k]
      (aesInvMidRounds ks.reverse
        (aesMidRounds ks (addRoundKey k (mixColumns (shiftRows (subBytes s)))))) = s
    rw [ih _ hks' (round_good hk hs)]
    exact invRound_round hk hs

/-- Decryption with split round keys undoes encryption. -/
theorem aesDecryptRounds_aesEncryptRounds {k0 kl s : List Nat} {mid : List (List Nat)}
    (hk0 : Good16 k0) (hkl : Good16 kl) (hmid : ∀ k ∈ mid, Good16 k) (hs : Good16 s) :
    aesDecryptRounds k0 mid kl (aesEncryptRounds k0 mid kl s) = s := by
  unfold aesDecryptRounds aesEncryptRounds
  have hgood := aesMidRounds_good mid _ hmid (addRoundKey_good hk0 hs)
  have h1 : (subBytes (aesMidRounds mid (addRoundKey k0 s))).length = 16 := by
    rw [subBytes_length, hgood.1]
  have h2 := shiftRows_length h1
  rw [addRoundKey_addRoundKey _ _ (by rw [h2, hkl.1]),
    invShiftRows_shiftRows h1, invSubBytes_subBytes hgood.2,
    aesInvMidRounds_aesMidRounds mid _ hmid (addRoundKey_good hk0 hs),
    addRoundKey_addRoundKey _ _ (by rw [hs.1, hk0.1])]

/-- Length of the big-endian word packing. -/
theorem bytesToWordsBE_length : ∀ (l : List Nat), (bytesToWordsBE l).length = l.length / 4 := by
  intro l
  induction l using bytesToWordsBE.induct with
  | case1 a b c d rest ih =>
    simp only [bytesToWordsBE, List.length_cons, ih]
    omega
  | case2 l h =>
    rcases l with _ | ⟨a, _ | ⟨b, _ | ⟨c, _ | ⟨d, rest⟩⟩⟩⟩
    · rfl
    · rw [show bytesToWordsBE [a] = [] from rfl]; simp
    · rw [show bytesToWordsBE [a, b] = [] from rfl]; simp
    · rw [show bytesToWordsBE [a, b, c] = [] from rfl]; simp
    · exact absurd rfl (fun hh => h a b c d rest hh)

/-- Length of the key expansion. -/
theorem aesExpandFrom_length : ∀ (fuel i : Nat) (acc : List Nat),
    (aesExpandFrom i fuel acc).length = acc.length + fuel := by
  intro fuel
  induction fuel with
  | zero => intro i acc; rfl
  | succ fuel ih =>
    intro i acc
    rw [aesExpandFrom, ih]
    simp
    omega

/-- Length of the round-key grouping. -/
theorem words4ToBytes_length : ∀ (l : List Nat), (words4ToBytes l).length = l.length / 4 := by
  intro l
  induction l using words4ToBytes.induct with
  | case1 w0 w1 w2 w3 rest ih =>
    simp only [words4ToBytes, List.length_cons, ih]
    omega
  | case2 l h =>
    rcases l with _ | ⟨a, _ | ⟨b, _ | ⟨c, _ | ⟨d, rest⟩⟩⟩⟩
    · rfl
    · rw [show words4ToBytes [a] = [] from rfl]; simp
    · rw [show words4ToBytes [a, b] = [] from rfl]; simp
    · rw [show words4ToBytes [a, b, c] = [] from rfl]; simp
    · exact absurd rfl (fun hh => h a b c d rest hh)

/-- A 32-byte key yields 15 round keys. -/
theorem roundKeys_length {key : List Nat} (h : key.length = 32) :
    (roundKeys key).length = 15 := by
  unfold roundKeys aesKeyWords
  rw [words4ToBytes_length, List.length_reverse, aesExpandFrom_length]
  rw [List.length_reverse, bytesToWordsBE_length, h]

/-- The 15 round keys of a 32-byte key split into first, middle and last, all
well-formed. -/
theorem roundKeys_split {key : List Nat} (h : key.length = 32) :
    ∃ k0 mid kl, roundKeys key = k0 :: (mid ++ [kl]) ∧ Good16 k0 ∧ Good16 kl ∧
      ∀ k ∈ mid, Good16 k := by
  have hlen := roundKeys_length h
  have hmem := words4ToBytes_mem (aesKeyWords key)
  rcases hks : roundKeys key with _ | ⟨k0, rest⟩
  · rw [hks] at hlen; simp at hlen
  rcases (List.eq_nil_or_concat rest) with rfl | ⟨mid, kl, rfl⟩
  · rw [hks] at hlen; simp at hlen
  have hmem' : ∀ k ∈ k0 :: (mid ++ [kl]), Good16 k := by
    rw [← List.concat_eq_append mid kl, ← hks]
    exact hmem
  exact ⟨k0, mid, kl, by rw [List.concat_eq_append], hmem' k0 (by simp), hmem' kl (by simp),
    fun k hk => hmem' k (by simp [hk])⟩

/-- AES-256 decryption inverts AES-256 encryption, for any 32-byte key and
16-byte block. -/
theorem aesDecryptBlock_aesEncryptBlock {key blk : List Nat}
    (hkey : key.length = 32) (hblk : blk.length = 16) (hok : BytesOk blk) :
    aesDecryptBlock key (aesEncryptBlock key blk) = blk := by
  obtain ⟨k0, mid, kl, hks, hk0, hkl, hmid⟩ := roundKeys_split hkey
  unfold aesDecryptBlock aesEncryptBlock
  rw [hks]
  simp only [List.headD_cons, List.drop_one, List.tail_cons, List.dropLast_concat,
    List.getLastD_cons, List.getLastD_concat]
  exact aesDecryptRounds_aesEncryptRounds hk0 hkl hmid ⟨hblk, hok⟩

/-- AES-256 encryption maps 16-byte states to 16-byte states. -/
theorem aesEncryptBlock_good {key blk : List Nat} (hkey : key.length = 32)
    (hblk : Good16 blk) : Good16 (aesEncryptBlock key blk) := by
  obtain ⟨k0, mid, kl, hks, hk0, hkl, hmid⟩ := roundKeys_split hkey
  unfold aesEncryptBlock
  rw [hks]
  simp only [List.headD_cons, List.drop_one, List.tail_cons, List.dropLast_concat,
    List.getLastD_cons, List.getLastD_concat]
  unfold aesEncryptRounds
  have hg := aesMidRounds_good mid _ hmid (addRoundKey_good hk0 hblk)
  have h1 : (subBytes (aesMidRounds mid (addRoundKey k0 blk))).length = 16 := by
    rw [subBytes_length, hg.1]
  exact addRoundKey_good hkl ⟨shiftRows_length h1, shiftRows_ok h1 (subBytes_ok _)⟩

/-! ## `CryptoJS.AES` password mode

`CryptoJS.AES.encrypt(message, password)` with a string password uses the
OpenSSL-compatible scheme: an 8-byte random salt (an explicit parameter
here), `EVP_BytesToKey` with MD5 deriving a 32-byte key and 16-byte IV,
AES-256-CBC with PKCS#7 padding, and a `Salted__`-prefixed, Base64-encoded
ciphertext.  `CryptoJS.pad.Pkcs7.unpad` performs no validation: it drops as
many bytes as the last byte indicates (clamping at zero). -/

/-- PKCS#7 padding to 16-byte blocks. -/
def pkcs7Pad (msg : List Nat) : List Nat :=
  let n := 16 - msg.length % 16
  msg ++ List.replicate n n

/-- crypto-js unpadding: drop as many bytes as the last byte says, without
validation. -/
def cryptojsUnpad (msg : List Nat) : List Nat :=
  msg.take (msg.length - msg.getLastD 0)

/-- Split a byte list into 16-byte blocks (dropping any short tail; inputs
are always a multiple of 16 bytes long). -/
def toBlocks : List Nat → List (List Nat)
  | b0 :: b1 :: b2 :: b3 :: b4 :: b5 :: b6 :: b7 ::
    b8 :: b9 :: b10 :: b11 :: b12 :: b13 :: b14 :: b15 :: rest =>
      [b0, b1, b2, b3, b4, b5, b6, b7, b8, b9, b10, b11, b12, b13, b14, b15] :: toBlocks rest
  | _ => []

/-- `D1 = MD5(password ∥ salt)` of `EVP_BytesToKey`. -/
def evpD1 (password salt : List Nat) : List Nat := md5Bytes (password ++ salt)

/-- `D2 = MD5(D1 ∥ password ∥ salt)` of `EVP_BytesToKey`. -/
def evpD2 (password salt : List Nat) : List Nat :=
  md5Bytes (evpD1 password salt ++ password ++ salt)

/-- `D3 = MD5(D2 ∥ password ∥ salt)` of `EVP_BytesToKey`. -/
def evpD3 (password salt : List Nat) : List Nat :=
  md5Bytes (evpD2 password salt ++ password ++ salt)

/-- The 32-byte key `D1 ∥ D2` of `EVP_BytesToKey` with MD5, one iteration. -/
def evpKey (password salt : List Nat) : List Nat :=
  evpD1 password salt ++ evpD2 password salt

/-- The 16-byte IV `D3` of `EVP_BytesToKey` with MD5, one iteration. -/
def evpIV (password salt : List Nat) : List Nat := evpD3 password salt

/-- CBC encryption over block lists; `prev` is the IV or previous ciphertext
block. -/
def cbcEncryptBlocks (key : List Nat) : List Nat → List (List Nat) → List (List Nat)
  | _, [] => []
  | prev, b :: bs =>
    let c := aesEncryptBlock key (List.zipWith (· ^^^ ·) b prev)
    c :: cbcEncryptBlocks key c bs

/-- CBC decryption over block lists. -/
def cbcDecryptBlocks (key : List Nat) : List Nat → List (List Nat) → List (List Nat)
  | _, [] => []
  | prev, c :: cs =>
    List.zipWith (· ^^^ ·) (aesDecryptBlock key c) prev :: cbcDecryptBlocks key c cs

/-- The ASCII bytes of `Salted__`. -/
def saltedMagic : List Nat := [0x53, 0x61, 0x6c, 0x74, 0x65, 0x64, 0x5f, 0x5f]

/-- Base64 character of a 6-bit value. -/
def b64Char (n : Nat) : Char :=
  Char.ofNat
    (if n < 26 then 65 + n
     else if n < 52 then 97 + (n - 26)
     else if n < 62 then 48 + (n - 52)
     else if n = 62 then 43
     else 47)

/-- Value of a Base64 character. -/
def b64Val (c : Char) : Nat :=
  let n := c.toNat
  if 65 ≤ n ∧ n ≤ 90 then n - 65
  else if 97 ≤ n ∧ n ≤ 122 then n - 71
  else if 48 ≤ n ∧ n ≤ 57 then n + 4
  else if n = 43 then 62
  else if n = 47 then 63
  else 0

/-- Base64 encoding (`CryptoJS.enc.Base64.stringify`). -/
def base64EncodeBytes : List Nat → List Char
  | a :: b :: c :: rest =>
    b64Char (a / 4) :: b64Char ((a % 4) * 16 + b / 16) ::
      b64Char ((b % 16) * 4 + c / 64) :: b64Char (c % 64) :: base64EncodeBytes rest
  | [a, b] => [b64Char (a / 4), b64Char ((a % 4) * 16 + b / 16), b64Char ((b % 16) * 4), '=']
  | [a] => [b64Char (a / 4), b64Char ((a % 4) * 16), '=', '=']
  | [] => []

/-- Base64 decoding (`CryptoJS.enc.Base64.parse`). -/
def base64DecodeChars : List Char → List Nat
  | c0 :: c1 :: c2 :: c3 :: rest =>
    if c2 = '=' then [b64Val c0 * 4 + b64Val c1 / 16]
    else if c3 = '=' then
      [b64Val c0 * 4 + b64Val c1 / 16, (b64Val c1 % 16) * 16 + b64Val c2 / 4]
    else
      (b64Val c0 * 4 + b64Val c1 / 16) :: ((b64Val c1 % 16) * 16 + b64Val c2 / 4) ::
        ((b64Val c2 % 4) * 64 + b64Val c3) :: base64DecodeChars rest
  | _ => []

/-- OpenSSL-format encryption: `Salted__`, the salt, then the CBC ciphertext
of the padded message under the EVP-derived key and IV. -/
def openSSLEncrypt (password salt msg : List Nat) : List Nat :=
  saltedMagic ++ salt ++
    (cbcEncryptBlocks (evpKey password salt) (evpIV password salt)
      (toBlocks (pkcs7Pad msg))).flatten

/-- OpenSSL-format decryption of a body with a known salt. -/
def openSSLDecryptBody (password salt body : List Nat) : List Nat :=
  cryptojsUnpad
    (cbcDecryptBlocks (evpKey password salt) (evpIV password salt) (toBlocks body)).flatten

/-- OpenSSL-format decryption: extract the salt after a `Salted__` header
(no salt otherwise), then decrypt. -/
def openSSLDecrypt (password blob : List Nat) : List Nat :=
  if blob.take 8 = saltedMagic then
    openSSLDecryptBody password ((blob.drop 8).take 8) (blob.drop 16)
  else
    openSSLDecryptBody password [] blob

/-- `CryptoJS.AES.encrypt(message, password).toString()`; the random 8-byte
salt is an explicit parameter. -/
def cryptojsAesEncrypt (message password : String) (salt : List Nat) : String :=
  ⟨base64EncodeBytes (openSSLEncrypt (utf8Encode password) salt (utf8Encode message))⟩

/-- `CryptoJS.AES.decrypt(ciphertext, password)` as raw bytes (before any
`toString`). -/
def cryptojsAesDecryptBytes (ciphertext password : String) : List Nat :=
  openSSLDecrypt (utf8Encode password) (base64DecodeChars ciphertext.data)

/-- `CryptoJS.AES.decrypt(ciphertext, password).toString(CryptoJS.enc.Utf8)`;
`none` models the `Malformed UTF-8 data` exception. -/
def cryptojsAesDecrypt (ciphertext password : String) : Option String :=
  utf8Decode (cryptojsAesDecryptBytes ciphertext password)

/-! ## Round-trip facts for the codec layers -/

/-- crypto-js unpadding undoes PKCS#7 padding. -/
theorem cryptojsUnpad_pkcs7Pad (l : List Nat) : cryptojsUnpad (pkcs7Pad l) = l := by
  simp only [cryptojsUnpad, pkcs7Pad]
  have hn : 1 ≤ 16 - l.length % 16 ∧ 16 - l.length % 16 ≤ 16 := by omega
  obtain ⟨m, hm⟩ : ∃ m, 16 - l.length % 16 = m + 1 := ⟨15 - l.length % 16, by omega⟩
  rw [hm, List.replicate_succ', ← List.append_assoc]
  rw [List.getLastD_concat]
  simp only [List.length_append, List.length_replicate, List.length_cons, List.length_nil]
  rw [show l.length + m + 1 - (m + 1) = l.length from by omega]
  rw [List.append_assoc, List.take_left]

/-- `b64Val` inverts `b64Char`, whose output is never `'='`. -/
theorem b64Char_spec {v : Nat} (h : v < 64) : b64Val (b64Char v) = v ∧ b64Char v ≠ '=' := by
  have := range_all
    (n := 64) (f := fun v => (b64Val (b64Char v) == v) && (b64Char v != '='))
    (by decide) v h
  simp only [Bool.and_eq_true, beq_iff_eq, bne_iff_ne] at this
  exact this

/-- Base64 decoding undoes Base64 encoding. -/
theorem base64_roundtrip : ∀ (l : List Nat), BytesOk l →
    base64DecodeChars (base64EncodeBytes l) = l := by
  intro l
  induction l using base64EncodeBytes.induct with
  | case1 a b c rest ih =>
    intro hok
    have ha : a < 256 := hok a (by simp)
    have hb : b < 256 := hok b (by simp)
    have hc : c < 256 := hok c (by simp)
    have ih' := ih (fun x hx => hok x (by simp [hx]))
    simp only [base64EncodeBytes, base64DecodeChars]
    rw [if_neg (b64Char_spec (v := (b % 16) * 4 + c / 64) (by omega)).2,
      if_neg (b64Char_spec (v := c % 64) (by omega)).2,
      (b64Char_spec (v := a / 4) (by omega)).1,
      (b64Char_spec (v := (a % 4) * 16 + b / 16) (by omega)).1,
      (b64Char_spec (v := (b % 16) * 4 + c / 64) (by omega)).1,
      (b64Char_spec (v := c % 64) (by omega)).1, ih']
    simp only [List.cons.injEq]
    refine ⟨by omega, by omega, by omega, trivial⟩
  | case2 a b =>
    intro hok
    have ha : a < 256 := hok a (by simp)
    have hb : b < 256 := hok b (by simp)
    simp only [base64EncodeBytes, base64DecodeChars]
    rw [if_neg (b64Char_spec (v := (b % 16) * 4) (by omega)).2, if_pos trivial,
      (b64Char_spec (v := a / 4) (by omega)).1,
      (b64Char_spec (v := (a % 4) * 16 + b / 16) (by omega)).1,
      (b64Char_spec (v := (b % 16) * 4) (by omega)).1]
    simp only [List.cons.injEq]
    refine ⟨by omega, by omega, trivial⟩
  | case3 a =>
    intro hok
    have ha : a < 256 := hok a (by simp)
    simp only [base64EncodeBytes, base64DecodeChars]
    rw [if_pos trivial,
      (b64Char_spec (v := a / 4) (by omega)).1,
      (b64Char_spec (v := (a % 4) * 16) (by omega)).1]
    simp only [List.cons.injEq]
    refine ⟨by omega, trivial⟩
  | case4 =>
    intro _
    rfl

/-- UTF-8 encodings consist of bytes. -/
theorem utf8EncodeNat_ok {n : Nat} (h : n < 0x110000) : ∀ b ∈ utf8EncodeNat n, b < 256 := by
  unfold utf8EncodeNat
  split
  · intro b hb; simp only [List.mem_cons, List.not_mem_nil, or_false] at hb; omega
  split
  · intro b hb; simp only [List.mem_cons, List.not_mem_nil, or_false] at hb
    rcases hb with rfl | rfl <;> omega
  split
  · intro b hb; simp only [List.mem_cons, List.not_mem_nil, or_false] at hb
    rcases hb with rfl | rfl | rfl <;> omega
  · intro b hb; simp only [List.mem_cons, List.not_mem_nil, or_false] at hb
    rcases hb with rfl | rfl | rfl | rfl <;> omega

/-- The UTF-8 bytes of a string are bytes. -/
theorem utf8Encode_ok (s : String) : BytesOk (utf8Encode s) := by
  intro b hb
  obtain ⟨c, _, hc⟩ := List.mem_flatMap.mp hb
  have hv : Nat.isValidChar c.toNat := c.valid
  have : c.toNat < 0x110000 := by
    rcases hv with h | h
    · omega
    · exact h.2
  exact utf8EncodeNat_ok this b hc

/-- Decoding one UTF-8-encoded scalar value from the front of a stream. -/
theorem utf8DecodeOne_encChar {n : Nat} (hval : Nat.isValidChar n) (rest : List Nat) :
    utf8DecodeOne (utf8EncodeNat n ++ rest) = some (n, rest) := by
  have hlt : n < 0x110000 := by rcases hval with h | h <;> omega
  have hsur : ¬(0xd800 ≤ n ∧ n ≤ 0xdfff) := by rcases hval with h | h <;> omega
  unfold utf8EncodeNat
  by_cases h1 : n < 0x80
  · rw [if_pos h1]
    simp only [List.cons_append, List.nil_append, utf8DecodeOne]
    rw [if_pos h1]
  rw [if_neg h1]
  by_cases h2 : n < 0x800
  · rw [if_pos h2]
    simp only [List.cons_append, List.nil_append, utf8DecodeOne]
    rw [if_neg (show ¬(192 + n / 64 < 0x80) from by omega),
      if_neg (show ¬(192 + n / 64 < 0xc2) from by omega),
      if_pos (show 192 + n / 64 < 0xe0 from by omega)]
    simp only [utf8Dec2]
    rw [if_pos (show 128 ≤ 128 + n % 64 ∧ 128 + n % 64 < 192 from by omega)]
    rw [show (192 + n / 64 - 192) * 64 + (128 + n % 64 - 128) = n from by omega]
  rw [if_neg h2]
  by_cases h3 : n < 0x10000
  · rw [if_pos h3]
    simp only [List.cons_append, List.nil_append, utf8DecodeOne]
    rw [if_neg (show ¬(224 + n / 4096 < 0x80) from by omega),
      if_neg (show ¬(224 + n / 4096 < 0xc2) from by omega),
      if_neg (show ¬(224 + n / 4096 < 0xe0) from by omega),
      if_pos (show 224 + n / 4096 < 0xf0 from by omega)]
    simp only [utf8Dec3]
    rw [if_pos (show 128 ≤ 128 + n / 64 % 64 ∧ 128 + n / 64 % 64 < 192 ∧
        128 ≤ 128 + n % 64 ∧ 128 + n % 64 < 192 from by omega)]
    rw [show (224 + n / 4096 - 224) * 4096 + (128 + n / 64 % 64 - 128) * 64 +
      (128 + n % 64 - 128) = n from by omega]
    rw [if_pos (show 0x800 ≤ n ∧ ¬(0xd800 ≤ n ∧ n ≤ 0xdfff) from ⟨by omega, hsur⟩)]
  · rw [if_neg h3]
    simp only [List.cons_append, List.nil_append, utf8DecodeOne]
    rw [if_neg (show ¬(240 + n / 262144 < 0x80) from by omega),
      if_neg (show ¬(240 + n / 262144 < 0xc2) from by omega),
      if_neg (show ¬(240 + n / 262144 < 0xe0) from by omega),
      if_neg (show ¬(240 + n / 262144 < 0xf0) from by omega),
      if_pos (show 240 + n / 262144 < 0xf5 from by omega)]
    simp only [utf8Dec4]
    rw [if_pos (show 128 ≤ 128 + n / 4096 % 64 ∧ 128 + n / 4096 % 64 < 192 ∧
        128 ≤ 128 + n / 64 % 64 ∧ 128 + n / 64 % 64 < 192 ∧
        128 ≤ 128 + n % 64 ∧ 128 + n % 64 < 192 from by omega)]
    rw [show (240 + n / 262144 - 240) * 262144 + (128 + n / 4096 % 64 - 128) * 4096 +
      (128 + n / 64 % 64 - 128) * 64 + (128 + n % 64 - 128) = n from by omega]
    rw [if_pos (show 0x10000 ≤ n ∧ n < 0x110000 from ⟨by omega, hlt⟩)]

/-- UTF-8 encodings are nonempty. -/
theorem utf8EncodeNat_ne_nil (n : Nat) : utf8EncodeNat n ≠ [] := by
  unfold utf8EncodeNat
  split
  · simp
  split
  · simp
  split
  · simp
  · simp

/-- The decoding loop undoes the character-wise encoding, given enough fuel. -/
theorem utf8DecodeLoop_enc : ∀ (cs : List Char) (fuel : Nat),
    (cs.flatMap (fun c => utf8EncodeNat c.toNat)).length ≤ fuel →
    utf8DecodeLoop fuel (cs.flatMap (fun c => utf8EncodeNat c.toNat)) =
      some (cs.map Char.toNat) := by
  intro cs
  induction cs with
  | nil => intro fuel _; cases fuel <;> rfl
  | cons c cs ih =>
    intro fuel hfuel
    rw [List.flatMap_cons] at hfuel ⊢
    obtain ⟨b, bs, hb⟩ := List.exists_cons_of_ne_nil (utf8EncodeNat_ne_nil c.toNat)
    have henc := utf8DecodeOne_encChar
      (show Nat.isValidChar c.toNat from c.valid)
      (cs.flatMap (fun c => utf8EncodeNat c.toNat))
    rw [hb] at henc hfuel ⊢
    simp only [List.length_append, List.length_cons, List.cons_append] at henc hfuel ⊢
    cases fuel with
    | zero => omega
    | succ f =>
      rw [utf8DecodeLoop, henc]
      · show Option.map (fun x => c.toNat :: x)
          (utf8DecodeLoop f (cs.flatMap fun c => utf8EncodeNat c.toNat)) = _
        rw [ih f (by omega)]
        rfl
      · simp

/-- UTF-8 decoding undoes UTF-8 encoding. -/
theorem utf8Decode_utf8Encode (s : String) : utf8Decode (utf8Encode s) = some s := by
  unfold utf8Decode utf8Encode utf8DecodeList
  rw [utf8DecodeLoop_enc s.data _ (Nat.le_refl _)]
  show some (⟨(s.data.map Char.toNat).map Char.ofNat⟩ : String) = some s
  have h : (s.data.map Char.toNat).map Char.ofNat = s.data := by
    rw [List.map_map]
    exact (List.map_congr_left (fun c _ => Char.ofNat_toNat c)).trans (List.map_id _)
  rw [h]

/-- A list with at least 16 elements starts with 16 elements. -/
theorem exists16' {s : List Nat} (h : 16 ≤ s.length) :
    ∃ a0 a1 a2 a3 a4 a5 a6 a7 a8 a9 a10 a11 a12 a13 a14 a15 rest,
      s = a0 :: a1 :: a2 :: a3 :: a4 :: a5 :: a6 :: a7 ::
        a8 :: a9 :: a10 :: a11 :: a12 :: a13 :: a14 :: a15 :: rest := by
  rcases s with _ | ⟨a0, _ | ⟨a1, _ | ⟨a2, _ | ⟨a3, _ | ⟨a4, _ | ⟨a5, _ | ⟨a6, _ | ⟨a7,
    _ | ⟨a8, _ | ⟨a9, _ | ⟨a10, _ | ⟨a11, _ | ⟨a12, _ | ⟨a13, _ | ⟨a14, _ | ⟨a15,
    rest⟩⟩⟩⟩⟩⟩⟩⟩⟩⟩⟩⟩⟩⟩⟩⟩
  all_goals simp only [List.length_cons, List.length_nil] at h
  all_goals try omega
  exact ⟨a0, a1, a2, a3, a4, a5, a6, a7, a8, a9, a10, a11, a12, a13, a14, a15, rest, rfl⟩

/-- `toBlocks` peels off a leading 16-byte block. -/
theorem toBlocks_cons16 {blk rest : List Nat} (h : blk.length = 16) :
    toBlocks (blk ++ rest) = blk :: toBlocks rest := by
  obtain ⟨a0, a1, a2, a3, a4, a5, a6, a7, a8, a9, a10, a11, a12, a13, a14, a15, rfl⟩ :=
    exists16 h
  rfl

/-- `toBlocks` undoes `flatten` on lists of 16-byte blocks. -/
theorem toBlocks_flatten : ∀ {bs : List (List Nat)}, (∀ b ∈ bs, b.length = 16) →
    toBlocks bs.flatten = bs := by
  intro bs
  induction bs with
  | nil => intro _; rfl
  | cons b bs ih =>
    intro h
    rw [List.flatten_cons, toBlocks_cons16 (h b (by simp)),
      ih (fun x hx => h x (by simp [hx]))]

/-- On byte lists of full blocks, `toBlocks` yields well-formed blocks and
loses nothing. -/
theorem toBlocks_spec : ∀ (l : List Nat), l.length % 16 = 0 → BytesOk l →
    (∀ b ∈ toBlocks l, Good16 b) ∧ (toBlocks l).flatten = l := by
  intro l
  induction l using toBlocks.induct with
  | case1 b0 b1 b2 b3 b4 b5 b6 b7 b8 b9 b10 b11 b12 b13 b14 b15 rest ih =>
    intro hlen hok
    have hrest : rest.length % 16 = 0 := by
      simp only [List.length_cons] at hlen; omega
    have hrok : BytesOk rest := fun x hx => hok x (by simp [hx])
    obtain ⟨ihg, ihf⟩ := ih hrest hrok
    constructor
    · intro b hb
      simp only [toBlocks, List.mem_cons] at hb
      rcases hb with rfl | hb
      · refine ⟨rfl, fun x hx => hok x ?_⟩
        simp only [List.mem_cons, List.not_mem_nil, or_false] at hx
        rcases hx with rfl | rfl | rfl | rfl | rfl | rfl | rfl | rfl |
          rfl | rfl | rfl | rfl | rfl | rfl | rfl | rfl <;> simp
      · exact ihg b hb
    · simp only [toBlocks, List.flatten_cons, ihf, List.cons_append, List.nil_append]
  | case2 l h =>
    intro hlen _
    have hlt : l.length < 16 := by
      by_contra hge
      obtain ⟨a0, a1, a2, a3, a4, a5, a6, a7, a8, a9, a10, a11, a12, a13, a14, a15, rest, rfl⟩ :=
        exists16' (s := l) (by omega)
      exact h a0 a1 a2 a3 a4 a5 a6 a7 a8 a9 a10 a11 a12 a13 a14 a15 rest rfl
    have : l = [] := List.eq_nil_of_length_eq_zero (by omega)
    subst this
    exact ⟨by simp [toBlocks], rfl⟩

/-- CBC ciphertext blocks are well-formed. -/
theorem cbcEncryptBlocks_good {key : List Nat} (hkey : key.length = 32) :
    ∀ (bs : List (List Nat)) (prev : List Nat), (∀ b ∈ bs, Good16 b) → Good16 prev →
      ∀ c ∈ cbcEncryptBlocks key prev bs, Good16 c := by
  intro bs
  induction bs with
  | nil => intro prev _ _ c hc; simp [cbcEncryptBlocks] at hc
  | cons b bs ih =>
    intro prev hbs hprev c hc
    have hb : Good16 b := hbs b (by simp)
    have hzip : Good16 (List.zipWith (· ^^^ ·) b prev) := addRoundKey_good hprev hb
    have hc' : Good16 (aesEncryptBlock key (List.zipWith (· ^^^ ·) b prev)) :=
      aesEncryptBlock_good hkey hzip
    simp only [cbcEncryptBlocks, List.mem_cons] at hc
    rcases hc with rfl | hc
    · exact hc'
    · exact ih _ (fun x hx => hbs x (by simp [hx])) hc' c hc

/-- CBC decryption undoes CBC encryption. -/
theorem cbcDecrypt_cbcEncrypt {key : List Nat} (hkey : key.length = 32) :
    ∀ (bs : List (List Nat)) (prev : List Nat), (∀ b ∈ bs, Good16 b) → Good16 prev →
      cbcDecryptBlocks key prev (cbcEncryptBlocks key prev bs) = bs := by
  intro bs
  induction bs with
  | nil => intro prev _ _; rfl
  | cons b bs ih =>
    intro prev hbs hprev
    have hb : Good16 b := hbs b (by simp)
    have hzip : Good16 (List.zipWith (· ^^^ ·) b prev) := addRoundKey_good hprev hb
    simp only [cbcEncryptBlocks, cbcDecryptBlocks]
    rw [aesDecryptBlock_aesEncryptBlock hkey hzip.1 hzip.2]
    have hcancel := addRoundKey_addRoundKey b prev (by rw [hb.1, hprev.1])
    simp only [addRoundKey] at hcancel
    rw [hcancel, ih _ (fun x hx => hbs x (by simp [hx])) (aesEncryptBlock_good hkey hzip)]

/-- The little-endian bytes of a word are bytes. -/
theorem wordToBytesLE_ok (w : Nat) : ∀ x ∈ wordToBytesLE w, x < 256 := by
  intro x hx
  simp only [wordToBytesLE, List.mem_cons, List.not_mem_nil, or_false] at hx
  rcases hx with rfl | rfl | rfl | rfl <;> exact Nat.lt_succ_of_le Nat.and_le_right

/-- MD5 digests are 16 bytes. -/
theorem md5Bytes_good (l : List Nat) : (md5Bytes l).length = 16 ∧ BytesOk (md5Bytes l) := by
  unfold md5Bytes
  constructor
  · simp [wordToBytesLE]
  · intro b hb
    obtain ⟨w, _, hw⟩ := List.mem_flatMap.mp hb
    exact wordToBytesLE_ok w b hw

/-- The EVP key is 32 well-formed bytes. -/
theorem evpKey_good (password salt : List Nat) :
    (evpKey password salt).length = 32 ∧ BytesOk (evpKey password salt) := by
  unfold evpKey evpD2 evpD1
  constructor
  · simp only [List.length_append, (md5Bytes_good _).1]
  · intro b hb
    rcases List.mem_append.mp hb with hb | hb
    · exact (md5Bytes_good _).2 b hb
    · exact (md5Bytes_good _).2 b hb

/-- The EVP IV is a well-formed block. -/
theorem evpIV_good (password salt : List Nat) : Good16 (evpIV password salt) := by
  unfold evpIV evpD3
  exact ⟨(md5Bytes_good _).1, (md5Bytes_good _).2⟩

/-- Padded messages are whole blocks of bytes. -/
theorem pkcs7Pad_good {l : List Nat} (h : BytesOk l) :
    (pkcs7Pad l).length % 16 = 0 ∧ BytesOk (pkcs7Pad l) := by
  unfold pkcs7Pad
  constructor
  · simp only [List.length_append, List.length_replicate]
    omega
  · intro b hb
    rcases List.mem_append.mp hb with hb | hb
    · exact h b hb
    · have := (List.mem_replicate.mp hb).2
      omega

/-- OpenSSL-format bytes are bytes. -/
theorem openSSLEncrypt_ok {password salt msg : List Nat} (hsok : BytesOk salt)
    (hmok : BytesOk msg) : BytesOk (openSSLEncrypt password salt msg) := by
  have hpad := pkcs7Pad_good hmok
  obtain ⟨hblocks, _⟩ := toBlocks_spec (pkcs7Pad msg) hpad.1 hpad.2
  have hct := cbcEncryptBlocks_good (evpKey_good password salt).1 _ _ hblocks
    (evpIV_good password salt)
  intro b hb
  rcases List.mem_append.mp hb with hb | hb
  · rcases List.mem_append.mp hb with hb | hb
    · simp only [saltedMagic, List.mem_cons, List.not_mem_nil, or_false] at hb
      rcases hb with rfl | rfl | rfl | rfl | rfl | rfl | rfl | rfl <;> norm_num
    · exact hsok b hb
  · obtain ⟨c, hc, hbc⟩ := List.mem_flatten.mp hb
    exact (hct c hc).2 b hbc

/-- OpenSSL-format decryption with the right password undoes the encryption
at the byte level. -/
theorem openSSLDecrypt_openSSLEncrypt {password salt msg : List Nat}
    (hlen : salt.length = 8) (hmok : BytesOk msg) :
    openSSLDecrypt password (openSSLEncrypt password salt msg) = msg := by
  have hpad := pkcs7Pad_good hmok
  obtain ⟨hblocks, hflat⟩ := toBlocks_spec (pkcs7Pad msg) hpad.1 hpad.2
  have hct := cbcEncryptBlocks_good (evpKey_good password salt).1 _ _ hblocks
    (evpIV_good password salt)
  unfold openSSLDecrypt openSSLEncrypt
  rw [List.append_assoc,
    List.take_left' (show saltedMagic.length = 8 from rfl), if_pos rfl,
    List.drop_left' (show saltedMagic.length = 8 from rfl),
    List.take_left' hlen, ← List.append_assoc,
    List.drop_left' (by simp [saltedMagic, hlen])]
  unfold openSSLDecryptBody
  rw [toBlocks_flatten (fun b hb => (hct b hb).1),
    cbcDecrypt_cbcEncrypt (evpKey_good password salt).1 _ _ hblocks (evpIV_good password salt),
    hflat, cryptojsUnpad_pkcs7Pad]

/-- The characters of a literal string. -/
theorem string_mk_data (l : List Char) : (⟨l⟩ : String).data = l := rfl

/-- `CryptoJS.AES` decryption with the right password undoes encryption:
for every message, password and salt, decrypting the encryption yields the
original message. -/
theorem cryptojsAes_roundtrip (message password : String) (salt : List Nat)
    (hlen : salt.length = 8) (hok : BytesOk salt) :
    cryptojsAesDecrypt (cryptojsAesEncrypt message password salt) password = some message := by
  unfold cryptojsAesDecrypt cryptojsAesDecryptBytes cryptojsAesEncrypt
  rw [string_mk_data,
    base64_roundtrip _ (openSSLEncrypt_ok hok (utf8Encode_ok message)),
    openSSLDecrypt_openSSLEncrypt hlen (utf8Encode_ok message)]
  exact utf8Decode_utf8Encode message

/-! ## The JSON wrapper

`EncryptionManager.encryptMessage` wraps the message as
`JSON.stringify({content, timestamp, nonce})` before encrypting, and
`decryptMessage` returns `JSON.parse(decryptedText).content`.  The model
implements `JSON.stringify`'s string escaping and a strict parser for the
whitespace-free flat string objects that `JSON.stringify` emits (parse
failure models the `JSON.parse` exception; a missing `content` member models
the JavaScript value `undefined`). -/

/-- Value of a hexadecimal digit character. -/
def hexVal (c : Char) : Nat :=
  let n := c.toNat
  if 48 ≤ n ∧ n ≤ 57 then n - 48
  else if 97 ≤ n ∧ n ≤ 102 then n - 87
  else if 65 ≤ n ∧ n ≤ 70 then n - 55
  else 0

/-- Is this a hexadecimal digit character? -/
def isHexDigitChar (c : Char) : Bool :=
  let n := c.toNat
  (48 ≤ n ∧ n ≤ 57) ∨ (97 ≤ n ∧ n ≤ 102) ∨ (65 ≤ n ∧ n ≤ 70)

/-- `JSON.stringify` escaping of one character. -/
def jsonEscapeChar (c : Char) : List Char :=
  if c = '"' then ['\\', '"']
  else if c = '\\' then ['\\', '\\']
  else if c = Char.ofNat 8 then ['\\', 'b']
  else if c = Char.ofNat 9 then ['\\', 't']
  else if c = Char.ofNat 10 then ['\\', 'n']
  else if c = Char.ofNat 12 then ['\\', 'f']
  else if c = Char.ofNat 13 then ['\\', 'r']
  else if c.toNat < 32 then ['\\', 'u', '0', '0', hexDigit (c.toNat / 16), hexDigit (c.toNat % 16)]
  else [c]

/-- `JSON.stringify` of a string: quoted and escaped. -/
def jsonQuote (s : String) : String :=
  "\"" ++ ⟨s.data.flatMap jsonEscapeChar⟩ ++ "\""

/-- `JSON.stringify({content, timestamp, nonce})`, the plaintext wrapper
built by `encryptMessage`. -/
def wrapMessage (content timestamp nonce : String) : String :=
  "\x7b\"content\":" ++ jsonQuote content ++ ",\"timestamp\":" ++ jsonQuote timestamp ++
    ",\"nonce\":" ++ jsonQuote nonce ++ "\x7d"

/-- JSON unescaping of a single-character escape. -/
def unescapeChar (e : Char) : Option Char :=
  if e = '"' then some '"'
  else if e = '\\' then some '\\'
  else if e = '/' then some '/'
  else if e = 'b' then some (Char.ofNat 8)
  else if e = 't' then some (Char.ofNat 9)
  else if e = 'n' then some (Char.ofNat 10)
  else if e = 'f' then some (Char.ofNat 12)
  else if e = 'r' then some (Char.ofNat 13)
  else none

/-- Parse a `\\uXXXX` escape body. -/
def jsonHex4 : List Char → Option (Option Char × List Char)
  | h1 :: h2 :: h3 :: h4 :: rest =>
    if isHexDigitChar h1 ∧ isHexDigitChar h2 ∧ isHexDigitChar h3 ∧ isHexDigitChar h4 then
      some (some (Char.ofNat (hexVal h1 * 4096 + hexVal h2 * 256 + hexVal h3 * 16 + hexVal h4)),
        rest)
    else none
  | _ => none

/-- Parse one escape after a backslash. -/
def jsonEsc : List Char → Option (Option Char × List Char)
  | e :: rest =>
    if e = 'u' then jsonHex4 rest
    else (unescapeChar e).map (fun ch => (some ch, rest))
  | [] => none

/-- Consume one logical character of a JSON string body; `none` in the first
component signals the closing quote. -/
def jsonStep : List Char → Option (Option Char × List Char)
  | [] => none
  | c :: rest =>
    if c = '"' then some (none, rest)
    else if c = '\\' then jsonEsc rest
    else if c.toNat < 32 then none
    else some (some c, rest)

/-- Parse a JSON string body up to the closing quote. -/
def parseStrLoop : Nat → List Char → Option (List Char × List Char)
  | _, [] => none
  | 0, _ :: _ => none
  | fuel + 1, l =>
    match jsonStep l with
    | none => none
    | some (none, rest) => some ([], rest)
    | some (some c, rest) => (parseStrLoop fuel rest).map (fun p => (c :: p.1, p.2))

/-- Parse a quoted JSON string. -/
def parseQuoted : List Char → Option (String × List Char)
  | c :: rest =>
    if c = '"' then (parseStrLoop rest.length rest).map (fun p => (⟨p.1⟩, p.2)) else none
  | [] => none

/-- Parse one `"key":"value"` member followed by its terminator character. -/
def parseMember (l : List Char) : Option ((String × String) × Char × List Char) :=
  match parseQuoted l with
  | none => none
  | some (key, rest) =>
    match rest with
    | c :: rest2 =>
      if c = ':' then
        match parseQuoted rest2 with
        | none => none
        | some (v, rest3) =>
          match rest3 with
          | c2 :: rest4 => some ((key, v), c2, rest4)
          | [] => none
      else none
    | [] => none

/-- Parse the members of a JSON object, after the opening brace. -/
def parseMembersLoop : Nat → List Char → Option (List (String × String) × List Char)
  | 0, _ => none
  | fuel + 1, l =>
    match parseMember l with
    | none => none
    | some (kv, term, rest) =>
      if term = ',' then (parseMembersLoop fuel rest).map (fun p => (kv :: p.1, p.2))
      else if term = '\x7d' then some ([kv], rest)
      else none

/-- Parse a flat JSON object with string members. -/
def parseObject : List Char → Option (List (String × String) × List Char)
  | c :: rest =>
    if c = '\x7b' then
      match rest with
      | c2 :: rest2 => if c2 = '\x7d' then some ([], rest2) else parseMembersLoop rest.length rest
      | [] => none
    else none
  | [] => none

/-- `JSON.parse(s).content`: outer `none` models the `JSON.parse` exception,
inner `none` the value `undefined` (duplicate keys: last wins). -/
def jsonParseContent (s : String) : Option (Option String) :=
  match parseObject s.data with
  | some (members, []) => some ((members.reverse.find? (fun m => m.1 == "content")).map (·.2))
  | _ => none

/-- `hexVal` inverts `hexDigit`, whose output is a hex digit. -/
theorem hexDigit_spec {v : Nat} (h : v < 16) :
    hexVal (hexDigit v) = v ∧ isHexDigitChar (hexDigit v) = true := by
  have := range_all
    (n := 16) (f := fun v => (hexVal (hexDigit v) == v) && isHexDigitChar (hexDigit v))
    (by decide) v h
  simp only [Bool.and_eq_true, beq_iff_eq] at this
  exact this

/-- `jsonStep` undoes `jsonEscapeChar`. -/
theorem jsonStep_escape (c : Char) (rest : List Char) :
    jsonStep (jsonEscapeChar c ++ rest) = some (some c, rest) := by
  unfold jsonEscapeChar
  by_cases h1 : c = '"'
  · rw [if_pos h1, h1]; rfl
  rw [if_neg h1]
  by_cases h2 : c = '\\'
  · rw [if_pos h2, h2]; rfl
  rw [if_neg h2]
  by_cases h3 : c = Char.ofNat 8
  · rw [if_pos h3, h3]; rfl
  rw [if_neg h3]
  by_cases h4 : c = Char.ofNat 9
  · rw [if_pos h4, h4]; rfl
  rw [if_neg h4]
  by_cases h5 : c = Char.ofNat 10
  · rw [if_pos h5, h5]; rfl
  rw [if_neg h5]
  by_cases h6 : c = Char.ofNat 12
  · rw [if_pos h6, h6]; rfl
  rw [if_neg h6]
  by_cases h7 : c = Char.ofNat 13
  · rw [if_pos h7, h7]; rfl
  rw [if_neg h7]
  by_cases h8 : c.toNat < 32
  · rw [if_pos h8]
    have hhi := hexDigit_spec (v := c.toNat / 16) (by omega)
    have hlo := hexDigit_spec (v := c.toNat % 16) (by omega)
    simp only [List.cons_append, jsonStep, jsonEsc, jsonHex4]
    rw [if_neg (by decide), if_pos (by decide), if_pos (by decide),
      if_pos ⟨by decide, by decide, hhi.2, hlo.2⟩]
    rw [show hexVal '0' * 4096 + hexVal '0' * 256 + hexVal (hexDigit (c.toNat / 16)) * 16 +
        hexVal (hexDigit (c.toNat % 16)) = c.toNat from by
      rw [hhi.1, hlo.1, show hexVal '0' = 0 from rfl]; omega]
    rw [Char.ofNat_toNat]
    rfl
  · rw [if_neg h8]
    simp only [List.cons_append, jsonStep]
    rw [if_neg h1, if_neg h2, if_neg h8]
    rfl

/-- `jsonEscapeChar` never yields the empty list. -/
theorem jsonEscapeChar_ne_nil (c : Char) : jsonEscapeChar c ≠ [] := by
  unfold jsonEscapeChar
  repeat' split
  all_goals simp

/-- The string-body parser undoes the character-wise escaping. -/
theorem parseStrLoop_escape : ∀ (cs : List Char) (fuel : Nat) (rest : List Char),
    (cs.flatMap jsonEscapeChar ++ '"' :: rest).length ≤ fuel →
    parseStrLoop fuel (cs.flatMap jsonEscapeChar ++ '"' :: rest) = some (cs, rest) := by
  intro cs
  induction cs with
  | nil =>
    intro fuel rest hfuel
    simp only [List.flatMap_nil, List.nil_append] at hfuel ⊢
    cases fuel with
    | zero => simp at hfuel
    | succ f => rfl
  | cons c cs ih =>
    intro fuel rest hfuel
    rw [List.flatMap_cons] at hfuel ⊢
    obtain ⟨b, bs, hb⟩ := List.exists_cons_of_ne_nil (jsonEscapeChar_ne_nil c)
    have hstep := jsonStep_escape c (cs.flatMap jsonEscapeChar ++ '"' :: rest)
    rw [hb] at hstep hfuel ⊢
    simp only [List.length_append, List.length_cons, List.cons_append, List.append_assoc]
      at hstep hfuel ⊢
    cases fuel with
    | zero => simp at hfuel
    | succ f =>
      rw [parseStrLoop, hstep]
      · show (parseStrLoop f (cs.flatMap jsonEscapeChar ++ '"' :: rest)).map
          (fun p => (c :: p.1, p.2)) = some (c :: cs, rest)
        rw [ih f rest (by simp only [List.length_append, List.length_cons]; omega)]
        rfl
      · simp

/-- The quoted-string parser undoes `jsonQuote`. -/
theorem parseQuoted_jsonQuote (s : String) (rest : List Char) :
    parseQuoted ((jsonQuote s).data ++ rest) = some (s, rest) := by
  have hdata : (jsonQuote s).data = '"' :: (s.data.flatMap jsonEscapeChar ++ ['"']) := by
    simp only [jsonQuote, String.data_append, string_mk_data]
    rfl
  rw [hdata]
  simp only [List.cons_append, List.append_assoc, List.nil_append]
  show (parseStrLoop (s.data.flatMap jsonEscapeChar ++ '"' :: rest).length
      (s.data.flatMap jsonEscapeChar ++ '"' :: rest)).map
    (fun p => ((⟨p.1⟩ : String), p.2)) = some (s, rest)
  rw [parseStrLoop_escape s.data _ rest (Nat.le_refl _)]
  rfl

/-- The member parser reads one quoted key, a colon, a quoted value and the
terminator. -/
theorem parseMember_quote (k v : String) (term : Char) (rest : List Char) :
    parseMember ((jsonQuote k).data ++ ':' :: ((jsonQuote v).data ++ term :: rest)) =
      some ((k, v), term, rest) := by
  unfold parseMember
  simp [parseQuoted_jsonQuote]

/-- The data of `jsonQuote s` is a quote, the escaped body, and a quote. -/
theorem jsonQuote_data (s : String) :
    (jsonQuote s).data = '"' :: (s.data.flatMap jsonEscapeChar ++ ['"']) := by
  simp only [jsonQuote, String.data_append, string_mk_data]
  rfl

/-- `parseMembersLoop` reads three quoted members terminated by a closing brace. -/
theorem parseMembersLoop_three (f : Nat) (k1 v1 k2 v2 k3 v3 : String) :
    parseMembersLoop (f + 3)
      ((jsonQuote k1).data ++ ':' :: ((jsonQuote v1).data ++ ',' ::
       ((jsonQuote k2).data ++ ':' :: ((jsonQuote v2).data ++ ',' ::
       ((jsonQuote k3).data ++ ':' :: ((jsonQuote v3).data ++ ['\x7d'])))))) =
      some ([(k1, v1), (k2, v2), (k3, v3)], []) := by
  simp [parseMembersLoop, parseMember_quote]


/-- `parseObject` on a three-member object in quoted form. -/
theorem parseObject_three (k1 v1 k2 v2 k3 v3 : String) :
    parseObject ('\x7b' ::
      ((jsonQuote k1).data ++ ':' :: ((jsonQuote v1).data ++ ',' ::
       ((jsonQuote k2).data ++ ':' :: ((jsonQuote v2).data ++ ',' ::
       ((jsonQuote k3).data ++ ':' :: ((jsonQuote v3).data ++ ['\x7d']))))))) =
      some ([(k1, v1), (k2, v2), (k3, v3)], []) := by
  obtain ⟨bs, hb⟩ : ∃ bs, (jsonQuote k1).data = '"' :: bs := ⟨_, jsonQuote_data k1⟩
  have hge : 3 ≤ ((jsonQuote k1).data ++ ':' :: ((jsonQuote v1).data ++ ',' ::
       ((jsonQuote k2).data ++ ':' :: ((jsonQuote v2).data ++ ',' ::
       ((jsonQuote k3).data ++ ':' :: ((jsonQuote v3).data ++ ['\x7d'])))))).length := by
    simp only [List.length_append, List.length_cons]
    omega
  obtain ⟨f, hf⟩ : ∃ f, ((jsonQuote k1).data ++ ':' :: ((jsonQuote v1).data ++ ',' ::
       ((jsonQuote k2).data ++ ':' :: ((jsonQuote v2).data ++ ',' ::
       ((jsonQuote k3).data ++ ':' :: ((jsonQuote v3).data ++ ['\x7d'])))))).length = f + 3 :=
    ⟨_, (Nat.sub_add_cancel hge).symm⟩
  rw [hb]
  simp only [List.cons_append, parseObject]
  rw [if_pos trivial, if_neg (by decide)]
  rw [← List.cons_append, ← hb, hf]
  exact parseMembersLoop_three f k1 v1 k2 v2 k3 v3


/-- The character data of the JSON wrapper, segmented for the object parser. -/
theorem wrapMessage_data (content ts nonce : String) :
    (wrapMessage content ts nonce).data = '\x7b' ::
      ((jsonQuote "content").data ++ ':' :: ((jsonQuote content).data ++ ',' ::
       ((jsonQuote "timestamp").data ++ ':' :: ((jsonQuote ts).data ++ ',' ::
       ((jsonQuote "nonce").data ++ ':' :: ((jsonQuote nonce).data ++ ['\x7d'])))))) := by
  have h1 : ("\x7b\"content\":" : String).data = '\x7b' :: ((jsonQuote "content").data ++ [':']) := rfl
  have h2 : ((",\"timestamp\":" : String)).data = ',' :: ((jsonQuote "timestamp").data ++ [':']) := rfl
  have h3 : ((",\"nonce\":" : String)).data = ',' :: ((jsonQuote "nonce").data ++ [':']) := rfl
  have h4 : (("\x7d" : String)).data = ['\x7d'] := rfl
  simp only [wrapMessage, String.data_append, h1, h2, h3, h4, List.cons_append,
    List.append_assoc, List.nil_append]
  rfl

/-- End-to-end: parsing the wrapper recovers the content field. -/
theorem jsonParseContent_wrapMessage (content ts nonce : String) :
    jsonParseContent (wrapMessage content ts nonce) = some (some content) := by
  unfold jsonParseContent
  rw [wrapMessage_data, parseObject_three]
  rfl


/-- A nonempty string has nonempty UTF-8 bytes. -/
theorem utf8Encode_ne_nil (s : String) (h : s ≠ "") : utf8Encode s ≠ [] := by
  unfold utf8Encode
  cases hs : s.data with
  | nil =>
    exfalso
    apply h
    cases s with
    | mk d =>
      rw [string_mk_data] at hs
      rw [hs]
  | cons c cs =>
    rw [List.flatMap_cons]
    intro hc
    exact utf8EncodeNat_ne_nil c.toNat (List.append_eq_nil.mp hc).1

/-- Base64 of a nonempty byte list is nonempty. -/
theorem base64EncodeBytes_ne_nil (l : List Nat) (h : l ≠ []) : base64EncodeBytes l ≠ [] := by
  match l, h with
  | a :: b :: c :: rest, _ => simp [base64EncodeBytes]
  | [a, b], _ => simp [base64EncodeBytes]
  | [a], _ => simp [base64EncodeBytes]
  | [], h => exact absurd rfl h

/-- The JSON wrapper is never the empty string. -/
theorem wrapMessage_ne_empty (content ts nonce : String) : wrapMessage content ts nonce ≠ "" := by
  intro h
  have hd := congrArg String.data h
  rw [wrapMessage_data] at hd
  exact List.cons_ne_nil _ _ hd


/-! ## Decimal representation (`Number.prototype.toString` on naturals)

`keyVersion.toString()` is Lean's `toString`, i.e. `Nat.repr`.  Injectivity is
proved by interpreting the digit list back to the number. -/

/-- Value of a decimal digit character. -/
def decVal (c : Char) : Nat := c.toNat - 48

/-- Interpretation of a decimal digit string. -/
def decOf (l : List Char) : Nat := l.foldl (fun a c => a * 10 + decVal c) 0

/-- `decVal` inverts `Nat.digitChar` on decimal digits. -/
theorem decVal_digitChar {d : Nat} (h : d < 10) : decVal (Nat.digitChar d) = d := by
  have := range_all (n := 10) (f := fun d => decVal (Nat.digitChar d) == d) (by decide) d h
  simpa using this

/-- `Nat.toDigitsCore` prepends to its accumulator. -/
theorem toDigitsCore_append : ∀ (fuel n : Nat) (ds : List Char),
    Nat.toDigitsCore 10 fuel n ds = Nat.toDigitsCore 10 fuel n [] ++ ds := by
  intro fuel
  induction fuel with
  | zero => intro n ds; rfl
  | succ f ih =>
    intro n ds
    rw [Nat.toDigitsCore, Nat.toDigitsCore]
    by_cases h : n / 10 = 0
    · rw [if_pos h, if_pos h]; rfl
    · rw [if_neg h, if_neg h, ih (n / 10) (Nat.digitChar (n % 10) :: ds),
        ih (n / 10) [Nat.digitChar (n % 10)]]
      simp

/-- Interpreting the digits produced by `Nat.toDigitsCore` recovers the
number, given enough fuel. -/
theorem decOf_toDigitsCore : ∀ (fuel n : Nat), n < 10 ^ fuel →
    decOf (Nat.toDigitsCore 10 fuel n []) = n := by
  intro fuel
  induction fuel with
  | zero =>
    intro n h
    have h0 : n = 0 := by omega
    subst h0; rfl
  | succ f ih =>
    intro n h
    rw [Nat.toDigitsCore]
    by_cases h0 : n / 10 = 0
    · rw [if_pos h0]
      have hn : n < 10 := by omega
      simp only [decOf, List.foldl_cons, List.foldl_nil]
      rw [decVal_digitChar (by omega)]
      omega
    · rw [if_neg h0, toDigitsCore_append]
      have hdiv : n / 10 < 10 ^ f := by
        rw [Nat.div_lt_iff_lt_mul (by omega)]
        calc n < 10 ^ (f + 1) := h
        _ = 10 ^ f * 10 := by ring
      simp only [decOf, List.foldl_append, List.foldl_cons, List.foldl_nil]
      have := ih (n / 10) hdiv
      simp only [decOf] at this
      rw [this, decVal_digitChar (Nat.mod_lt _ (by omega))]
      omega

/-- Decimal printing of naturals is injective. -/
theorem natRepr_injective {m n : Nat} (h : Nat.repr m = Nat.repr n) : m = n := by
  have hm : m < 10 ^ (m + 1) := by
    calc m < 10 ^ m := Nat.lt_pow_self (by omega) m
    _ ≤ 10 ^ (m + 1) := Nat.pow_le_pow_right (by omega) (by omega)
  have hn : n < 10 ^ (n + 1) := by
    calc n < 10 ^ n := Nat.lt_pow_self (by omega) n
    _ ≤ 10 ^ (n + 1) := Nat.pow_le_pow_right (by omega) (by omega)
  have hdata : Nat.toDigitsCore 10 (m + 1) m [] = Nat.toDigitsCore 10 (n + 1) n [] := by
    have := congrArg String.data h
    simpa [Nat.repr, Nat.toDigits, List.asString] using this
  have := decOf_toDigitsCore (m + 1) m hm
  rw [hdata, decOf_toDigitsCore (n + 1) n hn] at this
  omega

/-- `toString` on naturals is injective. -/
theorem natToString_injective {m n : Nat} (h : (toString m : String) = toString n) : m = n :=
  natRepr_injective h

/-! ## `EncryptionManager` (src/unnamed/part_003)

The manager's mutable fields (`keyPair`, `chatKeys`) form an explicit state
record; a JS `Map` is an association list in insertion order.  Thrown errors
are `Except.error` carrying the thrown message; randomness (entropy strings,
nonces, AES salts) and clock reads are explicit parameters standing for the
values the nondeterministic sources produced. -/

structure KeyPair where
  publicKey : String
  privateKey : String
deriving DecidableEq

structure ChatKeyPair where
  chatId : String
  sharedSecret : String
  keyVersion : Nat
deriving DecidableEq

structure EncState where
  keyPair : Option KeyPair
  chatKeys : List (String × ChatKeyPair)
deriving DecidableEq

/-- `Map.get` on an association list. -/
def mapGet (m : List (String × ChatKeyPair)) (k : String) : Option ChatKeyPair :=
  (m.find? (fun p => p.1 == k)).map (·.2)

/-- `Map.set` on an association list: replace in place if present, else
append. -/
def mapSet (m : List (String × ChatKeyPair)) (k : String) (v : ChatKeyPair) :
    List (String × ChatKeyPair) :=
  if m.any (fun p => p.1 == k) then m.map (fun p => if p.1 == k then (k, v) else p)
  else m ++ [(k, v)]

/-- `Map.has`. -/
def mapHas (m : List (String × ChatKeyPair)) (k : String) : Bool :=
  m.any (fun p => p.1 == k)

/-- `Array.prototype.sort()` on strings: lexicographic order. -/
def jsSort (l : List String) : List String := l.mergeSort (fun a b => decide (a ≤ b))

/-- JS truthiness of an optional number (`undefined` and `0` are falsy). -/
def optNatTruthy : Option Nat → Bool
  | none => false
  | some v => v != 0

/-- JS truthiness of an optional string (`undefined` and `''` are falsy). -/
def optStrTruthy : Option String → Bool
  | none => false
  | some s => s != ""

/-- `generateKeyPair`: the private key is PBKDF2 (10000 iterations, salt
`SecureChat-Salt`) of the collected entropy string, the public key is the
SHA-256 of the private key concatenated with `public-key-derivation`; the
pair is stored as the manager's key pair. -/
def generateKeyPair (st : EncState) (entropyString : String) : KeyPair × EncState :=
  let privateKey := pbkdf2Hex entropyString "SecureChat-Salt" 10000
  let publicKey := sha256Hex (privateKey ++ "public-key-derivation")
  (⟨publicKey, privateKey⟩, { st with keyPair := some ⟨publicKey, privateKey⟩ })

/-- `setKeyPair`. -/
def setKeyPair (st : EncState) (keyPair : KeyPair) : EncState :=
  { st with keyPair := some keyPair }

/-- The relation between the halves of every key pair `generateKeyPair`
returns (the public key is derived from the private key by hashing). -/
def DerivedKeyPair (kp : KeyPair) : Prop :=
  kp.publicKey = sha256Hex (kp.privateKey ++ "public-key-derivation")

instance : DecidablePred DerivedKeyPair := fun kp =>
  inferInstanceAs (Decidable (kp.publicKey = _))

/-- The PBKDF2 input `generateChatKey` derives the chat secret from: the
sorted public keys joined, then the chat id, then the decimal key version. -/
def chatKeyDerivationInput (myPublicKey : String) (participantPublicKeys : List String)
    (chatId : String) (keyVersion : Nat) : String :=
  String.join (jsSort (myPublicKey :: participantPublicKeys)) ++ chatId ++ toString keyVersion

/-- `generateChatKey`: PBKDF2 (5000 iterations, salt `chat-key-salt`) of the
derivation input; the result is cached under the chat id. -/
def generateChatKey (st : EncState) (chatId : String) (participantPublicKeys : List String)
    (keyVersion : Nat) : Except String (String × EncState) :=
  match st.keyPair with
  | none => .error "Key pair not initialized"
  | some kp =>
    let sharedSecret :=
      pbkdf2Hex (chatKeyDerivationInput kp.publicKey participantPublicKeys chatId keyVersion)
        "chat-key-salt" 5000
    .ok (sharedSecret,
      { st with chatKeys := mapSet st.chatKeys chatId ⟨chatId, sharedSecret, keyVersion⟩ })

/-- `getChatKey`: return the cached secret when one exists and no (truthy)
version was requested or the cached version matches; otherwise generate a new
key when both participant keys and a truthy version were supplied; otherwise
throw. -/
def getChatKey (st : EncState) (chatId : String) (participantPublicKeys : Option (List String))
    (keyVersion : Option Nat) : Except String (String × EncState) :=
  let hit : Option String :=
    match mapGet st.chatKeys chatId with
    | some existingKey =>
      if optNatTruthy keyVersion = false ∨ some existingKey.keyVersion = keyVersion then
        some existingKey.sharedSecret
      else none
    | none => none
  match hit with
  | some s => .ok (s, st)
  | none =>
    match participantPublicKeys, keyVersion with
    | some pks, some (v + 1) => generateChatKey st chatId pks (v + 1)
    | _, _ => .error "Chat key not found and insufficient data to generate new key"

/-- `rotateChatKey`: bump the cached version by one when a cached entry
exists, else restart at version 1, and derive the key for that version. -/
def rotateChatKey (st : EncState) (chatId : String) (participantPublicKeys : List String) :
    Except String (String × EncState) :=
  let newVersion :=
    match mapGet st.chatKeys chatId with
    | some existingKey => existingKey.keyVersion + 1
    | none => 1
  generateChatKey st chatId participantPublicKeys newVersion

/-- `encryptMessage`: with exactly one participant key the secret is the
SHA-256 of the private key and the peer public key, otherwise the cached chat
key; the content is wrapped in the `{content, timestamp, nonce}` JSON object
and AES-encrypted under the secret. -/
def encryptMessage (st : EncState) (message chatId : String)
    (participantPublicKeys : Option (List String)) (timestamp nonce : String)
    (salt : List Nat) : Except String (String × EncState) :=
  match st.keyPair with
  | none => .error "Key pair not initialized"
  | some kp =>
    let secretSt : Except String (String × EncState) :=
      match participantPublicKeys with
      | some [peerKey] => .ok (sha256Hex (kp.privateKey ++ peerKey), st)
      | _ => getChatKey st chatId participantPublicKeys none
    match secretSt with
    | .error _ => .error "Failed to encrypt message"
    | .ok (sharedSecret, st') =>
      .ok (cryptojsAesEncrypt (wrapMessage message timestamp nonce) sharedSecret salt, st')

/-- The tail of `decryptMessage` once the secret is chosen: AES-decrypt,
reject an empty result, JSON-parse and project out `content`. -/
def decryptParsed (encryptedMessage sharedSecret : String) : Except String (Option String) :=
  match cryptojsAesDecrypt encryptedMessage sharedSecret with
  | none => .error "Failed to decrypt message"
  | some decryptedText =>
    if decryptedText = "" then .error "Failed to decrypt message"
    else
      match jsonParseContent decryptedText with
      | none => .error "Failed to decrypt message"
      | some content => .ok content

/-- `decryptMessage`: the pairwise secret is used exactly when a (truthy)
sender public key is supplied and no chat key is cached for the chat id;
otherwise the cached chat key.  `Except.ok none` models the JS function
returning `undefined` when the parsed object has no `content` field. -/
def decryptMessage (st : EncState) (encryptedMessage chatId : String)
    (senderPublicKey : Option String) : Except String (Option String) :=
  match st.keyPair with
  | none => .error "Key pair not initialized"
  | some kp =>
    let secretE : Except String String :=
      if optStrTruthy senderPublicKey && !mapHas st.chatKeys chatId then
        .ok (sha256Hex (kp.privateKey ++ senderPublicKey.getD ""))
      else
        (getChatKey st chatId none none).map (·.1)
    match secretE with
    | .error _ => .error "Failed to decrypt message"
    | .ok sharedSecret => decryptParsed encryptedMessage sharedSecret

/-- `encryptFile`: Base64 of the UTF-8 bytes, AES-encrypted under the given
key (or the freshly generated `genKey` when none was given); returns the
ciphertext and the key used. -/
def encryptFile (fileData : String) (key : Option String) (genKey : String)
    (salt : List Nat) : String × String :=
  let fileKey := match key with | some k => if k = "" then genKey else k | none => genKey
  let compressed : String := ⟨base64EncodeBytes (utf8Encode fileData)⟩
  (cryptojsAesEncrypt compressed fileKey salt, fileKey)

/-- `decryptFile`: AES-decrypt, reject an empty result, then Base64-decode
and UTF-8-decode the compressed payload. -/
def decryptFile (encryptedData key : String) : Except String String :=
  match cryptojsAesDecrypt encryptedData key with
  | none => .error "Failed to decrypt file"
  | some compressed =>
    if compressed = "" then .error "Failed to decrypt file"
    else
      match utf8Decode (base64DecodeChars compressed.data) with
      | none => .error "Failed to decrypt file"
      | some decompressed => .ok decompressed

/-- `clearKeys`: drop the key pair and all chat keys. -/
def clearKeys (st : EncState) : EncState := ⟨none, []⟩

/-- What a member removed from a group can compute on their own: the chat-key
derivation for the post-removal roster, from the (public) roster public keys,
the chat id and the key version only — no private key enters. -/
def removedMemberRederivation (rosterPublicKeys : List String) (chatId : String)
    (version : Nat) : String :=
  pbkdf2Hex (String.join (jsSort rosterPublicKeys) ++ chatId ++ toString version)
    "chat-key-salt" 5000

/-! ## The peer-to-peer `EncryptionManager` (src/lib/encryption.ts)

The older two-argument manager: no chat keys, no JSON wrapper around the
plaintext, and the public key is the SHA-256 of the private key concatenated
with `public`. -/

namespace LibEncryption

/-- The relation between the halves of every key pair this manager's
`generateKeyPair` returns. -/
def DerivedKeyPair (kp : KeyPair) : Prop :=
  kp.publicKey = sha256Hex (kp.privateKey ++ "public")

/-- `encryptMessage(message, recipientPublicKey)`. -/
def encryptMessage (keyPair : Option KeyPair) (message recipientPublicKey : String)
    (salt : List Nat) : Except String String :=
  match keyPair with
  | none => .error "Key pair not initialized"
  | some kp =>
    .ok (cryptojsAesEncrypt message (sha256Hex (kp.privateKey ++ recipientPublicKey)) salt)

/-- `decryptMessage(encryptedMessage, senderPublicKey)`: AES-decrypt under
the pairwise secret and return the text unless it is empty; there is no
integrity or format check beyond UTF-8 decoding and the emptiness test. -/
def decryptMessage (keyPair : Option KeyPair) (encryptedMessage senderPublicKey : String) :
    Except String String :=
  match keyPair with
  | none => .error "Key pair not initialized"
  | some kp =>
    let sharedSecret := sha256Hex (kp.privateKey ++ senderPublicKey)
    match cryptojsAesDecrypt encryptedMessage sharedSecret with
    | none => .error "Failed to decrypt message"
    | some decryptedText =>
      if decryptedText = "" then .error "Failed to decrypt message"
      else .ok decryptedText

end LibEncryption

/-! ## `ChatManager` (src/lib/chat.ts)

Only the fields the verified operations touch are modelled: the chat list
(the `chats` table and the in-memory map the code keeps in sync with it), the
profile ids, and the pending-message queue (`Map` iterated in insertion
order).  `sendMessage`'s outcome (the network and database effects) is an
oracle parameter, and fresh message ids are a parameter as well. -/

structure PendingMessage where
  id : String
  chat_id : String
  content : String
  retry_count : Nat
deriving DecidableEq

/-- `Map.delete` on the pending queue. -/
def pmDelete (q : List PendingMessage) (i : String) : List PendingMessage :=
  q.filter (fun m => m.id != i)

/-- `Map.set` on the pending queue. -/
def pmSet (q : List PendingMessage) (m : PendingMessage) : List PendingMessage :=
  if q.any (fun x => x.id == m.id) then q.map (fun x => if x.id == m.id then m else x)
  else q ++ [m]

/-- The body of the `retryPendingMessages` loop for one snapshot entry: an
entry under the retry ceiling is re-sent — on success it is deleted; on
failure `sendMessage`'s catch block first enqueues a fresh pending copy of the
message (a new id, `retry_count` 0) and the loop's catch block then increments
the entry's own retry count — and an entry at the ceiling is deleted. -/
def retryStep (sendOk : PendingMessage → Bool) (freshId : PendingMessage → String)
    (q : List PendingMessage) (message : PendingMessage) : List PendingMessage :=
  if message.retry_count < 5 then
    if sendOk message then pmDelete q message.id
    else
      pmSet (pmSet q ⟨freshId message, message.chat_id, message.content, 0⟩)
        { message with retry_count := message.retry_count + 1 }
  else pmDelete q message.id

/-- `retryPendingMessages`: fold the loop body over a snapshot of the queue. -/
def retryPendingMessages (sendOk : PendingMessage → Bool)
    (freshId : PendingMessage → String) (q : List PendingMessage) : List PendingMessage :=
  q.foldl (retryStep sendOk freshId) q

structure Chat where
  id : String
  name : Option String
  is_group : Bool
  created_by : String
  participants : List String
deriving DecidableEq

structure ChatDB where
  profiles : List String
  chats : List Chat
deriving DecidableEq

/-- `createChat` for participants given as profile ids (the source first
resolves numeric user ids to profile ids).  For a direct chat with one
participant, an existing non-group chat whose two participants are exactly
the caller and the peer is returned as is; otherwise a chat with the
database-assigned id `newId` is inserted. -/
def createChat (db : ChatDB) (currentUser : Option String) (participantIds : List String)
    (isGroup : Bool) (name : Option String) (newId : String) : Except String (Chat × ChatDB) :=
  match currentUser with
  | none => .error "User not authenticated"
  | some uid =>
    if participantIds.isEmpty then .error "At least one participant is required"
    else if !(participantIds.all (fun i => db.profiles.contains i)) then
      .error "One or more participants not found"
    else
      let dedup : Option Chat :=
        if !isGroup && participantIds.length == 1 then
          db.chats.find? (fun c =>
            !c.is_group && c.participants.length == 2 &&
              c.participants.contains uid && c.participants.contains (participantIds.headD ""))
        else none
      match dedup with
      | some chat => .ok (chat, db)
      | none =>
        let newChat : Chat :=
          ⟨newId, if isGroup then name else none, isGroup, uid, uid :: participantIds⟩
        .ok (newChat, { db with chats := db.chats ++ [newChat] })

/-- `addGroupMember` of src/lib/chat.ts: after the permission checks the user
is appended to the participant list.  The encryption state is threaded
untouched — this manager performs no key rotation of any kind. -/
def addGroupMember (db : ChatDB) (enc : EncState) (currentUser : Option String)
    (chatId userId : String) : Except String (ChatDB × EncState) :=
  match currentUser with
  | none => .error "User not authenticated"
  | some uid =>
    match db.chats.find? (fun c => c.id == chatId) with
    | none => .error "Failed to add member: Chat not found"
    | some chat =>
      if !chat.is_group then .error "Failed to add member: Cannot add members to direct chat"
      else if chat.created_by != uid then
        .error "Failed to add member: Only chat creator can add members"
      else if !(db.profiles.contains userId) then .error "Failed to add member: User not found"
      else
        let chat' :=
          if chat.participants.contains userId then chat
          else { chat with participants := chat.participants ++ [userId] }
        .ok ({ db with chats := db.chats.map (fun c => if c.id == chatId then chat' else c) },
          enc)

/-- `removeGroupMember` of src/lib/chat.ts: after the permission checks the
user is filtered out of the participant list.  The encryption state is
threaded untouched — no key rotation occurs here either. -/
def removeGroupMember (db : ChatDB) (enc : EncState) (currentUser : Option String)
    (chatId userId : String) : Except String (ChatDB × EncState) :=
  match currentUser with
  | none => .error "User not authenticated"
  | some uid =>
    match db.chats.find? (fun c => c.id == chatId) with
    | none => .error "Failed to remove member: Chat not found"
    | some chat =>
      if !chat.is_group then
        .error "Failed to remove member: Cannot remove members from direct chat"
      else if chat.created_by != uid then
        .error "Failed to remove member: Only chat creator can remove members"
      else
        let chat' := { chat with participants := chat.participants.filter (fun i => i != userId) }
        .ok ({ db with chats := db.chats.map (fun c => if c.id == chatId then chat' else c) },
          enc)

/-! ## Supporting lemmas -/

/-- `jsSort` output is sorted. -/
theorem jsSort_sorted (l : List String) : (jsSort l).Sorted (· ≤ ·) := by
  have h := @List.sorted_mergeSort String (fun a b => decide (a ≤ b))
    (fun a b c hab hbc => by
      simp only [decide_eq_true_eq] at *
      exact le_trans hab hbc)
    (fun a b => by
      simp only [Bool.or_eq_true, decide_eq_true_eq]
      exact le_total a b)
    l
  exact h.imp (fun hab => by simpa using hab)

/-- `jsSort` permutes its input. -/
theorem jsSort_perm (l : List String) : (jsSort l).Perm l :=
  List.mergeSort_perm l _

/-- Sorting identifies permuted inputs. -/
theorem jsSort_eq_of_perm {l₁ l₂ : List String} (h : l₁.Perm l₂) :
    jsSort l₁ = jsSort l₂ :=
  List.eq_of_perm_of_sorted ((jsSort_perm l₁).trans (h.trans (jsSort_perm l₂).symm))
    (jsSort_sorted l₁) (jsSort_sorted l₂)

/-- The derivation input only depends on the multiset of participant keys. -/
theorem chatKeyDerivationInput_perm {pks₁ pks₂ : List String} (pk chatId : String)
    (v : Nat) (h : pks₁.Perm pks₂) :
    chatKeyDerivationInput pk pks₁ chatId v = chatKeyDerivationInput pk pks₂ chatId v := by
  unfold chatKeyDerivationInput
  rw [jsSort_eq_of_perm (h.cons pk)]

/-- Distinct versions give distinct derivation inputs (for one roster and
chat id). -/
theorem chatKeyDerivationInput_version_injective {pk chatId : String}
    {pks : List String} {v w : Nat}
    (h : chatKeyDerivationInput pk pks chatId v = chatKeyDerivationInput pk pks chatId w) :
    v = w := by
  unfold chatKeyDerivationInput at h
  have hd := congrArg String.data h
  simp only [String.data_append] at hd
  have hdig : (toString v : String).data = (toString w : String).data :=
    List.append_cancel_left hd
  exact natToString_injective (by
    cases hv : (toString v : String) with
    | mk dv =>
      cases hw : (toString w : String) with
      | mk dw => simp_all)

/-- Deleting an id leaves no entry with that id. -/
theorem pmDelete_find?_self (q : List PendingMessage) (i : String) :
    (pmDelete q i).find? (fun x => x.id == i) = none := by
  apply List.find?_eq_none.mpr
  intro x hx
  have := List.of_mem_filter hx
  simpa using this

/-- Deleting an id does not affect lookups of another id. -/
theorem pmDelete_find?_ne (q : List PendingMessage) (i j : String) (h : j ≠ i) :
    (pmDelete q i).find? (fun x => x.id == j) = q.find? (fun x => x.id == j) := by
  induction q with
  | nil => rfl
  | cons x q ih =>
    rw [pmDelete, List.filter_cons]
    by_cases hxi : x.id = i
    · rw [if_neg (by simp [hxi])]
      rw [show List.filter (fun m => m.id != i) q = pmDelete q i from rfl, ih,
        List.find?_cons_of_neg _ (by simp only [hxi, beq_iff_eq]; exact fun hh => h hh.symm)]
    · rw [if_pos (by simp [hxi])]
      rw [show List.filter (fun m => m.id != i) q = pmDelete q i from rfl]
      by_cases hxj : x.id = j
      · rw [List.find?_cons_of_pos _ (by simp [hxj]), List.find?_cons_of_pos _ (by simp [hxj])]
      · rw [List.find?_cons_of_neg _ (by simp [hxj]), List.find?_cons_of_neg _ (by simp [hxj])]
        exact ih

/-- After `pmSet`, looking up the set id finds exactly the new entry. -/
theorem pmSet_find?_self (q : List PendingMessage) (m : PendingMessage) :
    (pmSet q m).find? (fun x => x.id == m.id) = some m := by
  rw [pmSet]
  by_cases hq : q.any (fun x => x.id == m.id)
  · rw [if_pos hq]
    induction q with
    | nil => simp at hq
    | cons x q ih =>
      rw [List.map_cons]
      by_cases hx : x.id = m.id
      · rw [if_pos (by simp [hx]), List.find?_cons_of_pos _ (by simp)]
      · rw [if_neg (by simp [hx]), List.find?_cons_of_neg _ (by simp [hx])]
        refine ih ?_
        simp only [List.any_cons, Bool.or_eq_true, beq_iff_eq] at hq
        rcases hq with hq | hq
        · exact absurd hq hx
        · simpa using hq
  · rw [if_neg hq, List.find?_append]
    have hnone : q.find? (fun x => x.id == m.id) = none := by
      apply List.find?_eq_none.mpr
      intro x hx
      intro hcontra
      exact hq (List.any_eq_true.mpr ⟨x, hx, hcontra⟩)
    rw [hnone]
    simp [List.find?_cons]

/-- `pmSet` with one id does not affect lookups of another id. -/
theorem pmSet_find?_ne (q : List PendingMessage) (m : PendingMessage) (j : String)
    (h : m.id ≠ j) :
    (pmSet q m).find? (fun x => x.id == j) = q.find? (fun x => x.id == j) := by
  rw [pmSet]
  by_cases hq : q.any (fun x => x.id == m.id)
  · rw [if_pos hq]
    induction q with
    | nil => rfl
    | cons x q ih =>
      rw [List.map_cons]
      by_cases hx : x.id = m.id
      · rw [if_pos (by simp [hx]), List.find?_cons_of_neg _ (by simp [h]),
          List.find?_cons_of_neg _ (by simp [hx, h])]
        by_cases hq' : q.any (fun x => x.id == m.id)
        · exact ih hq'
        · -- the tail has no entry with `m.id`; the map is then the identity
          rw [List.map_congr_left (fun y hy => by
            rw [if_neg ?_]
            intro hcontra
            exact hq' (List.any_eq_true.mpr ⟨y, hy, hcontra⟩))]
          simp
      · rw [if_neg (by simp [hx])]
        by_cases hxj : x.id = j
        · rw [List.find?_cons_of_pos _ (by simp [hxj]), List.find?_cons_of_pos _ (by simp [hxj])]
        · rw [List.find?_cons_of_neg _ (by simp [hxj]), List.find?_cons_of_neg _ (by simp [hxj])]
          refine ih ?_
          simp only [List.any_cons, Bool.or_eq_true, beq_iff_eq] at hq
          rcases hq with hq | hq
          · exact absurd hq hx
          · simpa using hq
  · rw [if_neg hq, List.find?_append]
    cases hfind : q.find? (fun x => x.id == j) with
    | some y => rfl
    | none => simp [List.find?_cons, show (m.id == j) = false by simp [h]]

/-- Processing an entry with another id (whose fresh id also differs) leaves
lookups of `i` unchanged. -/
theorem retryStep_find?_ne (sendOk : PendingMessage → Bool)
    (freshId : PendingMessage → String) (q : List PendingMessage)
    (e : PendingMessage) (i : String) (hne : e.id ≠ i) (hfresh : freshId e ≠ i) :
    (retryStep sendOk freshId q e).find? (fun x => x.id == i) =
      q.find? (fun x => x.id == i) := by
  rw [retryStep]
  by_cases h5 : e.retry_count < 5
  · rw [if_pos h5]
    by_cases hok : sendOk e
    · rw [if_pos hok, pmDelete_find?_ne _ _ _ (fun hh => hne hh.symm)]
    · rw [if_neg hok,
        pmSet_find?_ne _ { e with retry_count := e.retry_count + 1 } _ hne,
        pmSet_find?_ne _ ⟨freshId e, e.chat_id, e.content, 0⟩ _ hfresh]
  · rw [if_neg h5, pmDelete_find?_ne _ _ _ (fun hh => hne hh.symm)]

/-- Folding the loop over entries whose ids (and fresh ids) differ from `i`
leaves lookups of `i` unchanged. -/
theorem retryFold_find?_ne (sendOk : PendingMessage → Bool)
    (freshId : PendingMessage → String) (i : String) :
    ∀ (l : List PendingMessage) (q : List PendingMessage),
      (∀ e ∈ l, e.id ≠ i) → (∀ e ∈ l, freshId e ≠ i) →
      (l.foldl (retryStep sendOk freshId) q).find? (fun x => x.id == i) =
        q.find? (fun x => x.id == i) := by
  intro l
  induction l with
  | nil => intro q _ _; rfl
  | cons e l ih =>
    intro q hid hfresh
    rw [List.foldl_cons, ih _ (fun x hx => hid x (List.mem_cons_of_mem e hx))
      (fun x hx => hfresh x (List.mem_cons_of_mem e hx)),
      retryStep_find?_ne _ _ _ _ _ (hid e (List.mem_cons_self e l))
      (hfresh e (List.mem_cons_self e l))]

/-- Claim C7: per-entry behaviour of one `retryPendingMessages` wake — an
entry with `retry_count < 5` is re-attempted: removed from the queue on
success, its `retry_count` incremented by exactly one on failure; an entry
whose `retry_count` has reached 5 is removed and never retried.  (The failure
path additionally enqueues the fresh pending copy `sendMessage`'s catch block
creates, with a new id and `retry_count` 0 — that copy is a new entry, not a
retry of this one.) -/
theorem retryPendingMessages_per_entry (sendOk : PendingMessage → Bool)
    (freshId : PendingMessage → String) (q : List PendingMessage) (e : PendingMessage)
    (he : e ∈ q) (hnd : (q.map (·.id)).Nodup)
    (hfresh : ∀ x ∈ q, freshId x ∉ q.map (·.id)) :
    (5 ≤ e.retry_count →
      (retryPendingMessages sendOk freshId q).find? (fun x => x.id == e.id) = none)
    ∧ (e.retry_count < 5 → sendOk e = true →
      (retryPendingMessages sendOk freshId q).find? (fun x => x.id == e.id) = none)
    ∧ (e.retry_count < 5 → sendOk e = false →
      (retryPendingMessages sendOk freshId q).find? (fun x => x.id == e.id) =
        some { e with retry_count := e.retry_count + 1 }) := by
  obtain ⟨l1, l2, rfl⟩ := List.append_of_mem he
  have hl2 : ∀ x ∈ l2, x.id ≠ e.id := by
    intro x hx
    have h2 : ((e :: l2).map (·.id)).Nodup := by
      have := @List.Nodup.of_append_right _ (l1.map (·.id)) _ (by simpa using hnd)
      simpa using this
    have := (List.nodup_cons.mp h2).1
    intro hcontra
    exact this (List.mem_map.mpr ⟨x, hx, hcontra⟩)
  have hl2f : ∀ x ∈ l2, freshId x ≠ e.id := by
    intro x hx hcontra
    have hxq : x ∈ l1 ++ e :: l2 := by simp [hx]
    have : e.id ∈ (l1 ++ e :: l2).map (·.id) := by simp
    exact hfresh x hxq (by rw [hcontra]; exact this)
  have hsplit : retryPendingMessages sendOk freshId (l1 ++ e :: l2) =
      l2.foldl (retryStep sendOk freshId)
        (retryStep sendOk freshId
          (l1.foldl (retryStep sendOk freshId) (l1 ++ e :: l2)) e) := by
    rw [retryPendingMessages, List.foldl_append, List.foldl_cons]
  refine ⟨fun h5 => ?_, fun h5 hok => ?_, fun h5 hok => ?_⟩
  · rw [hsplit, retryFold_find?_ne _ _ _ _ _ hl2 hl2f, retryStep,
      if_neg (by omega), pmDelete_find?_self]
  · rw [hsplit, retryFold_find?_ne _ _ _ _ _ hl2 hl2f, retryStep,
      if_pos h5, if_pos hok, pmDelete_find?_self]
  · rw [hsplit, retryFold_find?_ne _ _ _ _ _ hl2 hl2f, retryStep,
      if_pos h5, if_neg (by simp [hok])]
    exact pmSet_find?_self _ ⟨e.id, e.chat_id, e.content, e.retry_count + 1⟩

/-- The scan predicate `createChat` uses to find an existing direct chat. -/
def directChatWith (uid peer : String) (c : Chat) : Bool :=
  !c.is_group && c.participants.length == 2 &&
    c.participants.contains uid && c.participants.contains peer

/-- `createChat` for a direct chat scans with `directChatWith`. -/
theorem createChat_direct_eq (db : ChatDB) (A B : String) (name : Option String)
    (newId : String) (hB : db.profiles.contains B = true) :
    createChat db (some A) [B] false name newId =
      match db.chats.find? (directChatWith A B) with
      | some chat => .ok (chat, db)
      | none =>
        .ok (⟨newId, none, false, A, [A, B]⟩,
          { db with chats := db.chats ++ [⟨newId, none, false, A, [A, B]⟩] }) := by
  rw [createChat, if_neg (by simp),
    if_neg (by simp only [List.all_cons, List.all_nil, Bool.and_true, hB]; simp)]
  rfl

/-- Creating the same direct chat twice returns the first chat unchanged. -/
theorem createChat_direct_idempotent (db : ChatDB) (A B : String)
    (name₁ name₂ : Option String) (newId₁ newId₂ : String) (c : Chat) (db' : ChatDB)
    (h : createChat db (some A) [B] false name₁ newId₁ = .ok (c, db')) :
    createChat db' (some A) [B] false name₂ newId₂ = .ok (c, db') := by
  by_cases hB : db.profiles.contains B = true
  · rw [createChat_direct_eq _ _ _ _ _ hB] at h
    cases hfind : db.chats.find? (directChatWith A B) with
    | some chat =>
      rw [hfind] at h
      injection h with h1
      obtain ⟨rfl, rfl⟩ := Prod.mk.inj h1
      rw [createChat_direct_eq _ _ _ _ _ hB, hfind]
    | none =>
      rw [hfind] at h
      injection h with h1
      obtain ⟨rfl, rfl⟩ := Prod.mk.inj h1
      rw [createChat_direct_eq _ _ _ _ _ (by simpa using hB), List.find?_append, hfind,
        List.find?_cons_of_pos _ (by simp [directChatWith])]
      rfl
  · have hB' : db.profiles.contains B = false := by simpa using hB
    rw [createChat, if_neg (by simp),
      if_pos (by simp only [List.all_cons, List.all_nil, Bool.and_true, hB']; rfl)] at h
    cases h

/-- After `mapSet`, the set key maps to the new value. -/
theorem mapGet_mapSet_self (m : List (String × ChatKeyPair)) (k : String) (v : ChatKeyPair) :
    mapGet (mapSet m k v) k = some v := by
  rw [mapSet]
  by_cases hq : m.any (fun p => p.1 == k)
  · rw [if_pos hq, mapGet]
    induction m with
    | nil => simp at hq
    | cons x m ih =>
      rw [List.map_cons]
      by_cases hx : x.1 = k
      · rw [if_pos (by simp [hx]), List.find?_cons_of_pos _ (by simp)]
        rfl
      · rw [List.find?_cons_of_neg _ (by simp [hx])]
        refine ih ?_
        simp only [List.any_cons, Bool.or_eq_true, beq_iff_eq] at hq
        rcases hq with hq | hq
        · exact absurd hq hx
        · simpa using hq
  · rw [if_neg hq, mapGet, List.find?_append]
    have hnone : m.find? (fun p => p.1 == k) = none := by
      apply List.find?_eq_none.mpr
      intro x hx hcontra
      exact hq (List.any_eq_true.mpr ⟨x, hx, hcontra⟩)
    rw [hnone]
    simp [List.find?_cons]

/-- A cached entry makes `mapHas` true. -/
theorem mapHas_of_mapGet {m : List (String × ChatKeyPair)} {k : String} {e : ChatKeyPair}
    (h : mapGet m k = some e) : mapHas m k = true := by
  rw [mapGet] at h
  rw [mapHas]
  cases hf : m.find? (fun p => p.1 == k) with
  | none => rw [hf] at h; cases h
  | some p =>
    have hp := List.find?_some hf
    exact List.any_eq_true.mpr ⟨p, List.mem_of_find?_eq_some hf, hp⟩

/-- `getChatKey` with no requested version returns the cached secret without
touching the state. -/
theorem getChatKey_cached (st : EncState) (chatId : String) (e : ChatKeyPair)
    (pks : Option (List String)) (he : mapGet st.chatKeys chatId = some e) :
    getChatKey st chatId pks none = .ok (e.sharedSecret, st) := by
  rw [getChatKey, he]
  · rfl
  · exact fun _ _ _ h => Option.noConfusion h

/-- `getChatKey` with no cached key and no requested version throws. -/
theorem getChatKey_miss (st : EncState) (chatId : String) (pks : Option (List String))
    (he : mapGet st.chatKeys chatId = none) :
    getChatKey st chatId pks none =
      .error "Chat key not found and insufficient data to generate new key" := by
  cases pks with
  | none =>
    rw [getChatKey, he]
    exact fun _ _ _ h => Option.noConfusion h
  | some l =>
    rw [getChatKey, he]
    exact fun _ _ _ h => Option.noConfusion h

/-- With exactly one participant key, `encryptMessage` encrypts under the
pairwise hash of the private key and the peer key, leaving the state alone. -/
theorem encryptMessage_pairwise (st : EncState) (kp : KeyPair)
    (message chatId peerKey ts nonce : String) (salt : List Nat)
    (hkp : st.keyPair = some kp) :
    encryptMessage st message chatId (some [peerKey]) ts nonce salt =
      .ok (cryptojsAesEncrypt (wrapMessage message ts nonce)
        (sha256Hex (kp.privateKey ++ peerKey)) salt, st) := by
  rw [encryptMessage, hkp]

/-- With no single participant key, `encryptMessage` uses the cached chat
secret. -/
theorem encryptMessage_group_cached (st : EncState) (kp : KeyPair) (e : ChatKeyPair)
    (message chatId ts nonce : String) (pks : Option (List String)) (salt : List Nat)
    (hkp : st.keyPair = some kp) (he : mapGet st.chatKeys chatId = some e)
    (hne : ∀ k, pks ≠ some [k]) :
    encryptMessage st message chatId pks ts nonce salt =
      .ok (cryptojsAesEncrypt (wrapMessage message ts nonce) e.sharedSecret salt, st) := by
  rw [encryptMessage, hkp]
  match pks, hne with
  | none, _ => rw [getChatKey_cached st chatId e none he]
  | some [], _ => rw [getChatKey_cached st chatId e (some []) he]
  | some [k], hne => exact absurd rfl (hne k)
  | some (a :: b :: l), _ => rw [getChatKey_cached st chatId e (some (a :: b :: l)) he]

/-- With no single participant key and no cached chat secret,
`encryptMessage` throws. -/
theorem encryptMessage_group_miss (st : EncState) (kp : KeyPair)
    (message chatId ts nonce : String) (pks : Option (List String)) (salt : List Nat)
    (hkp : st.keyPair = some kp) (he : mapGet st.chatKeys chatId = none)
    (hne : ∀ k, pks ≠ some [k]) :
    encryptMessage st message chatId pks ts nonce salt =
      .error "Failed to encrypt message" := by
  rw [encryptMessage, hkp]
  match pks, hne with
  | none, _ => rw [getChatKey_miss st chatId none he]
  | some [], _ => rw [getChatKey_miss st chatId (some []) he]
  | some [k], hne => exact absurd rfl (hne k)
  | some (a :: b :: l), _ => rw [getChatKey_miss st chatId (some (a :: b :: l)) he]

/-- Once any chat key is cached for the chat id, `decryptMessage` uses it —
whatever the sender public key argument. -/
theorem decryptMessage_cached (st : EncState) (kp : KeyPair) (e : ChatKeyPair)
    (encryptedMessage chatId : String) (spk : Option String)
    (hkp : st.keyPair = some kp) (he : mapGet st.chatKeys chatId = some e) :
    decryptMessage st encryptedMessage chatId spk =
      decryptParsed encryptedMessage e.sharedSecret := by
  simp only [decryptMessage, hkp, mapHas_of_mapGet he, Bool.not_true, Bool.and_false,
    Bool.false_eq_true, if_false, getChatKey_cached st chatId e none he]
  rfl

/-- With a nonempty sender key and no cached chat key, `decryptMessage` uses
the pairwise hash of the private key and the sender key. -/
theorem decryptMessage_pairwise (st : EncState) (kp : KeyPair)
    (encryptedMessage chatId senderKey : String)
    (hkp : st.keyPair = some kp) (hsk : senderKey ≠ "")
    (hhas : mapHas st.chatKeys chatId = false) :
    decryptMessage st encryptedMessage chatId (some senderKey) =
      decryptParsed encryptedMessage (sha256Hex (kp.privateKey ++ senderKey)) := by
  simp only [decryptMessage, hkp, hhas, optStrTruthy, Bool.not_false, Bool.and_true,
    bne_iff_ne, ne_eq, hsk, not_false_eq_true, if_true, Option.getD_some]

/-- The successful result of `generateChatKey`. -/
theorem generateChatKey_ok (st : EncState) (kp : KeyPair) (chatId : String)
    (pks : List String) (v : Nat) (hkp : st.keyPair = some kp) :
    generateChatKey st chatId pks v =
      .ok (pbkdf2Hex (chatKeyDerivationInput kp.publicKey pks chatId v) "chat-key-salt" 5000,
        ⟨some kp, mapSet st.chatKeys chatId
          (⟨chatId,
            pbkdf2Hex (chatKeyDerivationInput kp.publicKey pks chatId v) "chat-key-salt" 5000,
            v⟩ : ChatKeyPair)⟩) := by
  rw [generateChatKey, hkp]

/-- `rotateChatKey` with a cached entry at version `v` derives version
`v + 1`. -/
theorem rotateChatKey_cached (st : EncState) (e : ChatKeyPair)
    (chatId : String) (pks : List String) (he : mapGet st.chatKeys chatId = some e) :
    rotateChatKey st chatId pks = generateChatKey st chatId pks (e.keyVersion + 1) := by
  rw [rotateChatKey, he]

/-- `rotateChatKey` with no cached entry restarts at version 1. -/
theorem rotateChatKey_uncached (st : EncState)
    (chatId : String) (pks : List String) (he : mapGet st.chatKeys chatId = none) :
    rotateChatKey st chatId pks = generateChatKey st chatId pks 1 := by
  rw [rotateChatKey, he]

/-- The roster rederivation equals the honest derivation input. -/
theorem removedMemberRederivation_eq (pk : String) (pks : List String) (chatId : String)
    (v : Nat) :
    removedMemberRederivation (pk :: pks) chatId v =
      pbkdf2Hex (chatKeyDerivationInput pk pks chatId v) "chat-key-salt" 5000 := rfl

/-- Decrypting with the secret a message was encrypted under recovers the
content field of the wrapper. -/
theorem decryptParsed_roundtrip (message ts nonce secret : String) (salt : List Nat)
    (hlen : salt.length = 8) (hok : BytesOk salt) :
    decryptParsed (cryptojsAesEncrypt (wrapMessage message ts nonce) secret salt) secret =
      .ok (some message) := by
  simp only [decryptParsed, cryptojsAes_roundtrip _ _ _ hlen hok, jsonParseContent_wrapMessage]
  rw [if_neg (wrapMessage_ne_empty message ts nonce)]

/-- `decryptFile` undoes `encryptFile` under the key it returns. -/
theorem decryptFile_encryptFile (fileData : String) (key : Option String) (genKey : String)
    (salt : List Nat) (hne : fileData ≠ "") (hlen : salt.length = 8) (hok : BytesOk salt) :
    decryptFile (encryptFile fileData key genKey salt).1 (encryptFile fileData key genKey salt).2 =
      .ok fileData := by
  unfold encryptFile
  simp only
  rw [decryptFile, cryptojsAes_roundtrip _ _ _ hlen hok]
  have hcomp : (⟨base64EncodeBytes (utf8Encode fileData)⟩ : String) ≠ "" := by
    intro hc
    have hdata : base64EncodeBytes (utf8Encode fileData) = [] := congrArg String.data hc
    exact base64EncodeBytes_ne_nil _ (utf8Encode_ne_nil _ hne) hdata
  simp only [if_neg hcomp, string_mk_data, base64_roundtrip _ (utf8Encode_ok fileData),
    utf8Decode_utf8Encode]



/-- ASCII bytes decode to themselves. -/
theorem utf8DecodeLoop_ascii : ∀ (l : List Nat) (fuel : Nat), (∀ b ∈ l, b < 128) →
    l.length ≤ fuel → utf8DecodeLoop fuel l = some l := by
  intro l
  induction l with
  | nil =>
    intro fuel _ _
    cases fuel <;> rfl
  | cons b bs ih =>
    intro fuel hascii hfuel
    cases fuel with
    | zero => simp at hfuel
    | succ f =>
      have hb : b < 128 := hascii b (List.mem_cons_self b bs)
      rw [utf8DecodeLoop]
      · rw [show utf8DecodeOne (b :: bs) = some (b, bs) from by
          rw [utf8DecodeOne, if_pos hb]]
        show (utf8DecodeLoop f bs).map (fun x => b :: x) = some (b :: bs)
        rw [ih f (fun x hx => hascii x (List.mem_cons_of_mem b hx))
          (by simpa using Nat.succ_le_succ_iff.mp (by simpa using hfuel))]
        rfl
      · simp

/-- An ASCII byte list decodes to the corresponding string. -/
theorem utf8Decode_ascii (l : List Nat) (h : ∀ b ∈ l, b < 128) :
    utf8Decode l = some ⟨l.map Char.ofNat⟩ := by
  unfold utf8Decode utf8DecodeList
  rw [utf8DecodeLoop_ascii l l.length h (Nat.le_refl _)]
  rfl

/-- The UTF-8 bytes of an ASCII string are its character codes. -/
theorem utf8Encode_ascii (l : List Nat) (h : ∀ b ∈ l, b < 128) :
    utf8Encode (⟨l.map Char.ofNat⟩ : String) = l := by
  unfold utf8Encode
  rw [string_mk_data, List.flatMap_map]
  induction l with
  | nil => rfl
  | cons b bs ih =>
    rw [List.flatMap_cons]
    have hb : b < 128 := h b (List.mem_cons_self b bs)
    have htn : (Char.ofNat b).toNat = b := by
      have := range_all (n := 128) (f := fun v => (Char.ofNat v).toNat == v) (by decide) b hb
      simpa using this
    rw [show utf8EncodeNat (Char.ofNat b).toNat = [b] from by
      rw [htn, utf8EncodeNat, if_pos hb]]
    rw [ih (fun x hx => h x (List.mem_cons_of_mem b hx))]
    rfl

/-- Truncating a ciphertext to its OpenSSL header plus the first block yields
a ciphertext that decrypts, without complaint, to the first fifteen
characters of the plaintext whenever the sixteenth plaintext byte is 1. -/
theorem cryptojsAes_truncation (message password : String) (salt pre suffix : List Nat)
    (hslen : salt.length = 8) (hsok : BytesOk salt)
    (hpre : pre.length = 15) (hascii : ∀ b ∈ pre, b < 128)
    (hmsg : utf8Encode message = pre ++ 1 :: suffix) :
    cryptojsAesDecrypt
      (⟨base64EncodeBytes
        ((base64DecodeChars (cryptojsAesEncrypt message password salt).data).take 32)⟩ : String)
      password = some (⟨pre.map Char.ofNat⟩ : String) := by
  have hb16 : (pre ++ [1]).length = 16 := by simp [hpre]
  have hbok : BytesOk (pre ++ [1]) := by
    intro x hx
    rcases List.mem_append.mp hx with h | h
    · exact Nat.lt_trans (hascii x h) (by norm_num)
    · simp at h; omega
  have hmsplit : pre ++ 1 :: suffix = (pre ++ [1]) ++ suffix := by simp
  set c1 := aesEncryptBlock (evpKey (utf8Encode password) salt)
      (List.zipWith (· ^^^ ·) (pre ++ [1]) (evpIV (utf8Encode password) salt)) with hc1
  have hgood_c1 : Good16 c1 := aesEncryptBlock_good (evpKey_good _ _).1
    (addRoundKey_good (evpIV_good _ _) ⟨hb16, hbok⟩)
  have hpad : pkcs7Pad (pre ++ 1 :: suffix) = (pre ++ [1]) ++
      (suffix ++ List.replicate (16 - (pre ++ 1 :: suffix).length % 16)
        (16 - (pre ++ 1 :: suffix).length % 16)) := by
    simp only [pkcs7Pad]
    rw [hmsplit, List.append_assoc]
  have henc : openSSLEncrypt (utf8Encode password) salt (utf8Encode message) =
      (saltedMagic ++ (salt ++ c1)) ++
        (cbcEncryptBlocks (evpKey (utf8Encode password) salt) c1
          (toBlocks (suffix ++ List.replicate (16 - (pre ++ 1 :: suffix).length % 16)
            (16 - (pre ++ 1 :: suffix).length % 16)))).flatten := by
    unfold openSSLEncrypt
    rw [hmsg, hpad, toBlocks_cons16 hb16, cbcEncryptBlocks]
    simp only [List.flatten_cons, ← hc1, List.append_assoc]
  have hA : (saltedMagic ++ (salt ++ c1)).length = 32 := by
    simp [saltedMagic, hslen, hgood_c1.1]
  have hAok : BytesOk (saltedMagic ++ (salt ++ c1)) := by
    intro x hx
    rcases List.mem_append.mp hx with h | h
    · have hm : BytesOk saltedMagic := by decide
      exact hm x h
    · rcases List.mem_append.mp h with h | h
      · exact hsok x h
      · exact hgood_c1.2 x h
  have hct : (base64DecodeChars (cryptojsAesEncrypt message password salt).data).take 32 =
      saltedMagic ++ (salt ++ c1) := by
    unfold cryptojsAesEncrypt
    rw [string_mk_data,
      base64_roundtrip _ (openSSLEncrypt_ok hsok (utf8Encode_ok message)), henc,
      List.take_left' hA]
  rw [hct]
  unfold cryptojsAesDecrypt cryptojsAesDecryptBytes
  rw [string_mk_data, base64_roundtrip _ hAok]
  unfold openSSLDecrypt
  rw [if_pos (List.take_left' (show saltedMagic.length = 8 from rfl)),
    List.drop_left' (show saltedMagic.length = 8 from rfl),
    List.take_left' hslen,
    show (saltedMagic ++ (salt ++ c1)).drop 16 = c1 from by
      rw [← List.append_assoc]
      exact List.drop_left' (by simp [saltedMagic, hslen])]
  unfold openSSLDecryptBody
  have htb : toBlocks c1 = [c1] := by
    conv_lhs => rw [← List.append_nil c1]
    rw [toBlocks_cons16 hgood_c1.1]
    rfl
  rw [htb]
  have hcbc : cbcDecryptBlocks (evpKey (utf8Encode password) salt)
      (evpIV (utf8Encode password) salt) [c1] = [pre ++ [1]] := by
    rw [hc1,
      show [aesEncryptBlock (evpKey (utf8Encode password) salt)
          (List.zipWith (· ^^^ ·) (pre ++ [1]) (evpIV (utf8Encode password) salt))] =
        cbcEncryptBlocks (evpKey (utf8Encode password) salt)
          (evpIV (utf8Encode password) salt) [pre ++ [1]] from rfl]
    refine cbcDecrypt_cbcEncrypt (evpKey_good _ _).1 [pre ++ [1]] _ ?_ (evpIV_good _ _)
    intro b hb
    rw [List.mem_singleton.mp hb]
    exact ⟨hb16, hbok⟩
  rw [hcbc]
  simp only [List.flatten_cons, List.flatten_nil, List.append_nil]
  rw [show cryptojsUnpad (pre ++ [1]) = pre from by
    unfold cryptojsUnpad
    rw [List.getLastD_concat, hb16, show (16 : Nat) - 1 = 15 from rfl]
    exact List.take_left' hpre]
  exact utf8Decode_ascii pre hascii


/-- Claim C7 witness: a three-entry queue — one send succeeds and is removed,
one fails and its retry count moves from 3 to 4, one is at the ceiling and is
dropped. -/
theorem retryPendingMessages_per_entry_witness :
    ((retryPendingMessages (fun m => m.id == "m1") (fun m => m.id ++ "-r")
      [⟨"m1", "c", "x", 0⟩, ⟨"m2", "c", "y", 3⟩, ⟨"m3", "c", "z", 5⟩]).find?
        (fun x => x.id == "m1") = none)
    ∧ ((retryPendingMessages (fun m => m.id == "m1") (fun m => m.id ++ "-r")
      [⟨"m1", "c", "x", 0⟩, ⟨"m2", "c", "y", 3⟩, ⟨"m3", "c", "z", 5⟩]).find?
        (fun x => x.id == "m2") = some ⟨"m2", "c", "y", 4⟩)
    ∧ ((retryPendingMessages (fun m => m.id == "m1") (fun m => m.id ++ "-r")
      [⟨"m1", "c", "x", 0⟩, ⟨"m2", "c", "y", 3⟩, ⟨"m3", "c", "z", 5⟩]).find?
        (fun x => x.id == "m3") = none) :=
  ⟨(retryPendingMessages_per_entry (fun m => m.id == "m1") (fun m => m.id ++ "-r")
      [⟨"m1", "c", "x", 0⟩, ⟨"m2", "c", "y", 3⟩, ⟨"m3", "c", "z", 5⟩] ⟨"m1", "c", "x", 0⟩
      (by decide) (by decide) (by decide)).2.1 (by decide) (by decide),
   (retryPendingMessages_per_entry (fun m => m.id == "m1") (fun m => m.id ++ "-r")
      [⟨"m1", "c", "x", 0⟩, ⟨"m2", "c", "y", 3⟩, ⟨"m3", "c", "z", 5⟩] ⟨"m2", "c", "y", 3⟩
      (by decide) (by decide) (by decide)).2.2 (by decide) (by decide),
   (retryPendingMessages_per_entry (fun m => m.id == "m1") (fun m => m.id ++ "-r")
      [⟨"m1", "c", "x", 0⟩, ⟨"m2", "c", "y", 3⟩, ⟨"m3", "c", "z", 5⟩] ⟨"m3", "c", "z", 5⟩
      (by decide) (by decide) (by decide)).1 (by decide)⟩

/-- Claim C2: the revocation boundary fails — the secret `rotateChatKey`
derives after a membership change is a function of the remaining roster's
public keys, the chat id and the key version only: `removedMemberRederivation`
takes no private input, yet always equals the rotated secret, so a member
removed at version N (who knows all of these public values) can compute every
secret of version N + 1 and beyond. -/
theorem rotateChatKey_secret_is_public (st : EncState) (kp : KeyPair)
    (chatId : String) (activePublicKeys : List String) (s : String) (st' : EncState)
    (hkp : st.keyPair = some kp)
    (hrot : rotateChatKey st chatId activePublicKeys = .ok (s, st')) :
    removedMemberRederivation (kp.publicKey :: activePublicKeys) chatId
      (match mapGet st.chatKeys chatId with
       | some e => e.keyVersion + 1
       | none => 1) = s := by
  cases he : mapGet st.chatKeys chatId with
  | some e =>
    rw [rotateChatKey_cached st e chatId _ he,
      generateChatKey_ok st kp chatId _ _ hkp] at hrot
    injection hrot with h1
    obtain ⟨hs, _⟩ := Prod.mk.inj h1
    rw [removedMemberRederivation_eq]
    exact hs
  | none =>
    rw [rotateChatKey_uncached st chatId _ he,
      generateChatKey_ok st kp chatId _ _ hkp] at hrot
    injection hrot with h1
    obtain ⟨hs, _⟩ := Prod.mk.inj h1
    rw [removedMemberRederivation_eq]
    exact hs

/-- Claim C2 witness: a concrete three-member roster after a removal; the
rederivation from public data equals the rotated secret. -/
theorem rotateChatKey_secret_is_public_witness :
    (⟨some ⟨"creator-public", "creator-private"⟩, []⟩ : EncState).keyPair =
        some ⟨"creator-public", "creator-private"⟩
    ∧ rotateChatKey ⟨some ⟨"creator-public", "creator-private"⟩, []⟩ "group-1"
        ["member-b-public", "member-c-public"] =
      .ok (pbkdf2Hex (chatKeyDerivationInput "creator-public"
            ["member-b-public", "member-c-public"] "group-1" 1) "chat-key-salt" 5000,
        ⟨some ⟨"creator-public", "creator-private"⟩,
          [("group-1", ⟨"group-1",
            pbkdf2Hex (chatKeyDerivationInput "creator-public"
              ["member-b-public", "member-c-public"] "group-1" 1) "chat-key-salt" 5000, 1⟩)]⟩)
    ∧ removedMemberRederivation
        ("creator-public" :: ["member-b-public", "member-c-public"]) "group-1" 1 =
      pbkdf2Hex (chatKeyDerivationInput "creator-public"
        ["member-b-public", "member-c-public"] "group-1" 1) "chat-key-salt" 5000 :=
  ⟨rfl, rfl,
    rotateChatKey_secret_is_public ⟨some ⟨"creator-public", "creator-private"⟩, []⟩
      ⟨"creator-public", "creator-private"⟩ "group-1" ["member-b-public", "member-c-public"]
      _ _ rfl rfl⟩

/-- Claim C4: group-secret order independence — `generateChatKey` returns the
same result (secret, cache and all) for every permutation of the participant
public-key list, because the keys are sorted before being combined. -/
theorem generateChatKey_order_independent (st : EncState) (chatId : String)
    (keyVersion : Nat) (pks₁ pks₂ : List String) (h : pks₁.Perm pks₂) :
    generateChatKey st chatId pks₁ keyVersion = generateChatKey st chatId pks₂ keyVersion := by
  obtain ⟨okp, cks⟩ := st
  cases okp with
  | none => rfl
  | some kp =>
    rw [generateChatKey_ok _ kp _ _ _ rfl, generateChatKey_ok _ kp _ _ _ rfl,
      chatKeyDerivationInput_perm kp.publicKey chatId keyVersion h]

/-- Claim C4 witness: a concrete permutation of three keys. -/
theorem generateChatKey_order_independent_witness :
    (["b", "a", "c"].Perm ["a", "b", "c"])
    ∧ generateChatKey ⟨some ⟨"p", "k"⟩, []⟩ "chat" ["b", "a", "c"] 2 =
      generateChatKey ⟨some ⟨"p", "k"⟩, []⟩ "chat" ["a", "b", "c"] 2 :=
  ⟨by decide, generateChatKey_order_independent _ _ _ _ _ (by decide)⟩

/-- Claim C5 (amended): with a cached chat key at version v, `rotateChatKey`
derives version v + 1 and caches it, and derivation inputs at distinct
versions differ (the decimal version is embedded in the PBKDF2 input); with
no cached entry — after `clearKeys`, a restart or on a fresh device —
rotation restarts at version 1 and can re-derive an old secret, as the
counterexample shows. -/
theorem rotateChatKey_version_amended :
    (∀ (st : EncState) (kp : KeyPair) (e : ChatKeyPair) (chatId : String)
        (pks : List String) (s : String) (st' : EncState),
      st.keyPair = some kp → mapGet st.chatKeys chatId = some e →
      rotateChatKey st chatId pks = .ok (s, st') →
      s = pbkdf2Hex (chatKeyDerivationInput kp.publicKey pks chatId (e.keyVersion + 1))
          "chat-key-salt" 5000 ∧
      mapGet st'.chatKeys chatId = some ⟨chatId, s, e.keyVersion + 1⟩)
    ∧ (∀ (pk chatId : String) (pks : List String) (v w : Nat), v ≠ w →
      chatKeyDerivationInput pk pks chatId v ≠ chatKeyDerivationInput pk pks chatId w) := by
  refine ⟨?_, ?_⟩
  · intro st kp e chatId pks s st' hkp he hrot
    rw [rotateChatKey_cached st e chatId pks he,
      generateChatKey_ok st kp chatId pks _ hkp] at hrot
    injection hrot with h1
    obtain ⟨hs, hst⟩ := Prod.mk.inj h1
    refine ⟨hs.symm, ?_⟩
    rw [← hst, ← hs]
    exact mapGet_mapSet_self _ _ _
  · intro pk chatId pks v w hvw hcontra
    exact hvw (chatKeyDerivationInput_version_injective hcontra)

/-- Claim C5 witness: a cached version-3 key rotates to a cached version-4
key, and version-1 and version-2 derivation inputs differ. -/
theorem rotateChatKey_version_amended_witness :
    (mapGet (⟨some ⟨"p", "k"⟩,
        mapSet [("c", (⟨"c", "s0", 3⟩ : ChatKeyPair))] "c"
          ⟨"c", pbkdf2Hex (chatKeyDerivationInput "p" ["q"] "c" 4) "chat-key-salt" 5000, 4⟩⟩
          : EncState).chatKeys "c" =
      some ⟨"c", pbkdf2Hex (chatKeyDerivationInput "p" ["q"] "c" 4) "chat-key-salt" 5000, 4⟩)
    ∧ chatKeyDerivationInput "p" ["q"] "c" 1 ≠ chatKeyDerivationInput "p" ["q"] "c" 2 :=
  ⟨(rotateChatKey_version_amended.1 ⟨some ⟨"p", "k"⟩, [("c", ⟨"c", "s0", 3⟩)]⟩ ⟨"p", "k"⟩
      ⟨"c", "s0", 3⟩ "c" ["q"] _ _ rfl rfl rfl).2,
    rotateChatKey_version_amended.2 "p" "c" ["q"] 1 2 (by omega)⟩

/-- Claim C5 counterexample: a chat reaches key version 2; after `clearKeys`
(logout) and a re-login, the next membership-change rotation produces
version 1 — the version goes DOWN — and its secret is identical to the
version-1 secret derived earlier.  Also, the current ChatManager's
`addGroupMember` succeeds without touching the encryption state at all, so
no version increases there either. -/
theorem rotateChatKey_version_counterexample :
    ∃ (s₁ s₂ s₃ : String) (st₁ st₂ st₄ : EncState),
      generateChatKey ⟨some ⟨"pubA", "privA"⟩, []⟩ "chat1" ["pubB"] 1 = .ok (s₁, st₁) ∧
      rotateChatKey st₁ "chat1" ["pubB"] = .ok (s₂, st₂) ∧
      mapGet st₂.chatKeys "chat1" = some ⟨"chat1", s₂, 2⟩ ∧
      rotateChatKey (setKeyPair (clearKeys st₂) ⟨"pubA", "privA"⟩) "chat1" ["pubB"] =
        .ok (s₃, st₄) ∧
      mapGet st₄.chatKeys "chat1" = some ⟨"chat1", s₃, 1⟩ ∧
      s₃ = s₁ ∧
      addGroupMember ⟨["creator", "u2"], [⟨"g1", none, true, "creator", ["creator"]⟩]⟩ st₂
          (some "creator") "g1" "u2" =
        .ok (⟨["creator", "u2"], [⟨"g1", none, true, "creator", ["creator", "u2"]⟩]⟩, st₂) := by
  exact ⟨_, _, _, _, _, _, rfl, rfl, rfl, rfl, rfl, rfl, rfl⟩

/-- Claim C6: direct-chat dedup — once `createChat` has returned a direct
chat for peer B, calling it again returns the same chat and leaves the
database unchanged. -/
theorem createChat_direct_dedup (db : ChatDB) (A B : String)
    (name₁ name₂ : Option String) (newId₁ newId₂ : String) (c : Chat) (db' : ChatDB)
    (h : createChat db (some A) [B] false name₁ newId₁ = .ok (c, db')) :
    createChat db' (some A) [B] false name₂ newId₂ = .ok (c, db') :=
  createChat_direct_idempotent db A B name₁ name₂ newId₁ newId₂ c db' h

/-- Claim C6 witness: creating the alice–bob chat twice returns the same
chat id. -/
theorem createChat_direct_dedup_witness :
    createChat ⟨["alice", "bob"], []⟩ (some "alice") ["bob"] false none "chat-1" =
      .ok (⟨"chat-1", none, false, "alice", ["alice", "bob"]⟩,
        ⟨["alice", "bob"], [⟨"chat-1", none, false, "alice", ["alice", "bob"]⟩]⟩)
    ∧ createChat ⟨["alice", "bob"], [⟨"chat-1", none, false, "alice", ["alice", "bob"]⟩]⟩
        (some "alice") ["bob"] false none "chat-2" =
      .ok (⟨"chat-1", none, false, "alice", ["alice", "bob"]⟩,
        ⟨["alice", "bob"], [⟨"chat-1", none, false, "alice", ["alice", "bob"]⟩]⟩) :=
  ⟨rfl, createChat_direct_dedup ⟨["alice", "bob"], []⟩ "alice" "bob" none none
    "chat-1" "chat-2" _ _ rfl⟩

/-- Claim C9: every operation needing the private key — `encryptMessage`,
`decryptMessage` and `generateChatKey` — throws `Key pair not initialized`
when no key pair is set, whatever the other arguments and cached chat keys. -/
theorem uninitialized_key_errors :
    (∀ (cks : List (String × ChatKeyPair)) (message chatId : String)
        (pks : Option (List String)) (ts nonce : String) (salt : List Nat),
      encryptMessage ⟨none, cks⟩ message chatId pks ts nonce salt =
        .error "Key pair not initialized")
    ∧ (∀ (cks : List (String × ChatKeyPair)) (encryptedMessage chatId : String)
        (spk : Option String),
      decryptMessage ⟨none, cks⟩ encryptedMessage chatId spk =
        .error "Key pair not initialized")
    ∧ (∀ (cks : List (String × ChatKeyPair)) (chatId : String) (pks : List String) (v : Nat),
      generateChatKey ⟨none, cks⟩ chatId pks v = .error "Key pair not initialized") :=
  ⟨fun _ _ _ _ _ _ _ => rfl, fun _ _ _ _ => rfl, fun _ _ _ _ => rfl⟩


/-- Claim C3: round-trip — with the same secret context on both calls
(an initialized key pair plus, per path, the cached chat key or the same
peer key), `decryptMessage` returns exactly the message `encryptMessage`
produced, and `decryptFile` returns the data `encryptFile` encrypted. -/
theorem encryptMessage_decryptMessage_roundtrip :
    (∀ (st : EncState) (kp : KeyPair) (e : ChatKeyPair) (message chatId ts nonce : String)
        (salt : List Nat), st.keyPair = some kp → mapGet st.chatKeys chatId = some e →
        salt.length = 8 → BytesOk salt →
        encryptMessage st message chatId none ts nonce salt =
          .ok (cryptojsAesEncrypt (wrapMessage message ts nonce) e.sharedSecret salt, st) ∧
        decryptMessage st (cryptojsAesEncrypt (wrapMessage message ts nonce) e.sharedSecret salt)
          chatId none = .ok (some message))
    ∧ (∀ (kp : KeyPair) (message chatId peerKey ts nonce : String) (salt : List Nat),
        peerKey ≠ "" → salt.length = 8 → BytesOk salt →
        encryptMessage ⟨some kp, []⟩ message chatId (some [peerKey]) ts nonce salt =
          .ok (cryptojsAesEncrypt (wrapMessage message ts nonce)
            (sha256Hex (kp.privateKey ++ peerKey)) salt, ⟨some kp, []⟩) ∧
        decryptMessage ⟨some kp, []⟩
          (cryptojsAesEncrypt (wrapMessage message ts nonce)
            (sha256Hex (kp.privateKey ++ peerKey)) salt) chatId (some peerKey) =
          .ok (some message))
    ∧ (∀ (fileData : String) (key : Option String) (genKey : String) (salt : List Nat),
        fileData ≠ "" → salt.length = 8 → BytesOk salt →
        decryptFile (encryptFile fileData key genKey salt).1
          (encryptFile fileData key genKey salt).2 = .ok fileData) := by
  refine ⟨?_, ?_, ?_⟩
  · intro st kp e message chatId ts nonce salt hkp he hlen hok
    refine ⟨encryptMessage_group_cached st kp e message chatId ts nonce none salt hkp he
      (fun k h => Option.noConfusion h), ?_⟩
    rw [decryptMessage_cached st kp e _ chatId none hkp he,
      decryptParsed_roundtrip message ts nonce e.sharedSecret salt hlen hok]
  · intro kp message chatId peerKey ts nonce salt hpk hlen hok
    refine ⟨encryptMessage_pairwise _ kp message chatId peerKey ts nonce salt rfl, ?_⟩
    rw [decryptMessage_pairwise ⟨some kp, []⟩ kp _ chatId peerKey rfl hpk rfl,
      decryptParsed_roundtrip message ts nonce _ salt hlen hok]
  · intro fileData key genKey salt hne hlen hok
    exact decryptFile_encryptFile fileData key genKey salt hne hlen hok

/-- Claim C3 witness: a concrete cached-key round-trip and a concrete file
round-trip. -/
theorem encryptMessage_decryptMessage_roundtrip_witness :
    decryptMessage ⟨some ⟨"p", "k"⟩, [("c", ⟨"c", "secret", 1⟩)]⟩
        (cryptojsAesEncrypt (wrapMessage "hello" "123" "n0") "secret"
          [1, 2, 3, 4, 5, 6, 7, 8]) "c" none = .ok (some "hello")
    ∧ decryptFile (encryptFile "data" none "fk" [1, 2, 3, 4, 5, 6, 7, 8]).1
        (encryptFile "data" none "fk" [1, 2, 3, 4, 5, 6, 7, 8]).2 = .ok "data" :=
  ⟨(encryptMessage_decryptMessage_roundtrip.1 ⟨some ⟨"p", "k"⟩, [("c", ⟨"c", "secret", 1⟩)]⟩
      ⟨"p", "k"⟩ ⟨"c", "secret", 1⟩ "hello" "c" "123" "n0" [1, 2, 3, 4, 5, 6, 7, 8]
      rfl rfl rfl (by decide)).2,
   encryptMessage_decryptMessage_roundtrip.2.2 "data" none "fk" [1, 2, 3, 4, 5, 6, 7, 8]
      (by decide) rfl (by decide)⟩

/-- Claim C8 (amended/corrected): tamper detection fails — `decryptMessage`
of src/lib/encryption.ts rejects only an empty or non-UTF-8 result, so a
ciphertext truncated to the OpenSSL header plus the first block is accepted
whenever the plaintext's 16th byte is 1, and the corrupted 15-character
prefix is returned as the message. -/
theorem decryptMessage_accepts_truncation (kp : KeyPair)
    (message senderPublicKey : String) (salt pre suffix : List Nat) (ct : String)
    (hslen : salt.length = 8) (hsok : BytesOk salt)
    (hpre : pre.length = 15) (hascii : ∀ b ∈ pre, b < 128)
    (hmsg : utf8Encode message = pre ++ 1 :: suffix)
    (henc : LibEncryption.encryptMessage (some kp) message senderPublicKey salt = .ok ct) :
    LibEncryption.decryptMessage (some kp)
        (⟨base64EncodeBytes ((base64DecodeChars ct.data).take 32)⟩ : String)
        senderPublicKey =
      .ok (⟨pre.map Char.ofNat⟩ : String) := by
  have hct : ct = cryptojsAesEncrypt message
      (sha256Hex (kp.privateKey ++ senderPublicKey)) salt := by
    rw [LibEncryption.encryptMessage] at henc
    injection henc with h
    exact h.symm
  subst hct
  have hne : (⟨pre.map Char.ofNat⟩ : String) ≠ "" := by
    intro hcontra
    have hnil : pre.map Char.ofNat = [] := congrArg String.data hcontra
    have := congrArg List.length hnil
    simp [hpre] at this
  simp only [LibEncryption.decryptMessage,
    cryptojsAes_truncation message _ salt pre suffix hslen hsok hpre hascii hmsg]
  rw [if_neg hne]

/-- Claim C8 witness: the truncation attack at a concrete key, message and
salt; the 15-character prefix is accepted. -/
theorem decryptMessage_accepts_truncation_witness :
    ((⟨[65, 66, 67, 68, 69, 70, 71, 72, 73, 74, 75, 76, 77, 78, 79].map Char.ofNat⟩ : String) =
      "ABCDEFGHIJKLMNO")
    ∧ LibEncryption.decryptMessage (some ⟨"pub", "priv"⟩)
        (⟨base64EncodeBytes ((base64DecodeChars
          (cryptojsAesEncrypt "ABCDEFGHIJKLMNO\x01Z"
            (sha256Hex ("priv" ++ "peer")) [1, 2, 3, 4, 5, 6, 7, 8]).data).take 32)⟩ : String)
        "peer" =
      .ok (⟨[65, 66, 67, 68, 69, 70, 71, 72, 73, 74, 75, 76, 77, 78, 79].map Char.ofNat⟩ :
        String) :=
  ⟨rfl,
    decryptMessage_accepts_truncation ⟨"pub", "priv"⟩ "ABCDEFGHIJKLMNO\x01Z" "peer"
      [1, 2, 3, 4, 5, 6, 7, 8] [65, 66, 67, 68, 69, 70, 71, 72, 73, 74, 75, 76, 77, 78, 79]
      [90] _ rfl (by decide) rfl (by decide) rfl rfl⟩


set_option maxRecDepth 1000000 in
set_option maxHeartbeats 4000000 in
/-- Claim C8 counterexample: concretely, the 48-byte ciphertext of the
17-character message `ABCDEFGHIJKLMNO\x01Z` truncated to its first 32 bytes
is a different ciphertext that `decryptMessage` happily accepts, returning
the corrupted plaintext `ABCDEFGHIJKLMNO` instead of any decryption error. -/
theorem decryptMessage_accepts_truncation_counterexample :
    ∃ (ct ct' : String),
      LibEncryption.encryptMessage (some ⟨"pub", "priv"⟩) "ABCDEFGHIJKLMNO\x01Z" "peer"
        [1, 2, 3, 4, 5, 6, 7, 8] = .ok ct ∧
      ct' = (⟨base64EncodeBytes ((base64DecodeChars ct.data).take 32)⟩ : String) ∧
      ct' ≠ ct ∧
      LibEncryption.decryptMessage (some ⟨"pub", "priv"⟩) ct' "peer" =
        .ok "ABCDEFGHIJKLMNO" ∧
      ("ABCDEFGHIJKLMNO" : String) ≠ "ABCDEFGHIJKLMNO\x01Z" := by
  exact ⟨_, _, rfl, rfl, by decide, rfl, by decide⟩


set_option maxRecDepth 1000000 in
set_option maxHeartbeats 4000000 in
/-- Claim C1: direct-secret symmetry fails — the public key is a hash of the
private key, not a group element, so nothing makes
SHA-256(A.priv ++ B.pub) equal SHA-256(B.priv ++ A.pub); for a concrete pair
of well-formed key pairs the two secrets differ, Alice's single-recipient
`encryptMessage` for Bob succeeds, and Bob's `decryptMessage` of that
ciphertext throws instead of returning the message. -/
theorem direct_secret_symmetry_fails :
    ∃ (A B : KeyPair) (ct : String),
      DerivedKeyPair A ∧ DerivedKeyPair B ∧
      sha256Hex (A.privateKey ++ B.publicKey) ≠ sha256Hex (B.privateKey ++ A.publicKey) ∧
      encryptMessage ⟨some A, []⟩ "hi" "chat1" (some [B.publicKey])
        "1700000000000" "nonce0123456789ab" [1, 2, 3, 4, 5, 6, 7, 8] =
        .ok (ct, ⟨some A, []⟩) ∧
      decryptMessage ⟨some B, []⟩ ct "chat1" (some A.publicKey) =
        .error "Failed to decrypt message" := by
  refine ⟨⟨sha256Hex ("alice-private-key" ++ "public-key-derivation"), "alice-private-key"⟩,
    ⟨sha256Hex ("bob-private-key" ++ "public-key-derivation"), "bob-private-key"⟩,
    _, rfl, rfl, by decide, rfl, ?_⟩
  rfl


set_option maxRecDepth 1000000 in
set_option maxHeartbeats 4000000 in
/-- Claim C10: secret-selection dispatch — `encryptMessage` takes the
pairwise path exactly when exactly one participant key is supplied (and the
cached chat key otherwise); `decryptMessage` takes the pairwise path exactly
when a nonempty sender key is supplied and no chat key is cached, and once
any chat key is cached it is used whatever the sender key; consequently a
concrete pairwise ciphertext no longer decrypts once a chat key is cached. -/
theorem secret_selection_dispatch :
    (∀ (st : EncState) (kp : KeyPair) (message chatId peerKey ts nonce : String)
        (salt : List Nat), st.keyPair = some kp →
      encryptMessage st message chatId (some [peerKey]) ts nonce salt =
        .ok (cryptojsAesEncrypt (wrapMessage message ts nonce)
          (sha256Hex (kp.privateKey ++ peerKey)) salt, st))
    ∧ (∀ (st : EncState) (kp : KeyPair) (e : ChatKeyPair)
        (message chatId ts nonce : String) (pks : Option (List String)) (salt : List Nat),
      st.keyPair = some kp → mapGet st.chatKeys chatId = some e →
      (∀ k, pks ≠ some [k]) →
      encryptMessage st message chatId pks ts nonce salt =
        .ok (cryptojsAesEncrypt (wrapMessage message ts nonce) e.sharedSecret salt, st))
    ∧ (∀ (st : EncState) (kp : KeyPair) (encryptedMessage chatId senderKey : String),
      st.keyPair = some kp → senderKey ≠ "" → mapHas st.chatKeys chatId = false →
      decryptMessage st encryptedMessage chatId (some senderKey) =
        decryptParsed encryptedMessage (sha256Hex (kp.privateKey ++ senderKey)))
    ∧ (∀ (st : EncState) (kp : KeyPair) (e : ChatKeyPair)
        (encryptedMessage chatId : String) (spk : Option String),
      st.keyPair = some kp → mapGet st.chatKeys chatId = some e →
      decryptMessage st encryptedMessage chatId spk =
        decryptParsed encryptedMessage e.sharedSecret)
    ∧ (∃ (A B : KeyPair) (ct : String),
      encryptMessage ⟨some A, []⟩ "hi" "chat1" (some [B.publicKey])
        "1700000000000" "nonce0123456789ab" [1, 2, 3, 4, 5, 6, 7, 8] =
        .ok (ct, ⟨some A, []⟩) ∧
      decryptMessage ⟨some B, [("chat1", ⟨"chat1", "groupsecret", 1⟩)]⟩ ct "chat1"
          (some A.publicKey) =
        .error "Failed to decrypt message") := by
  refine ⟨encryptMessage_pairwise, encryptMessage_group_cached,
    decryptMessage_pairwise, decryptMessage_cached, ?_⟩
  refine ⟨⟨sha256Hex ("alice-private-key" ++ "public-key-derivation"), "alice-private-key"⟩,
    ⟨sha256Hex ("bob-private-key" ++ "public-key-derivation"), "bob-private-key"⟩,
    _, rfl, ?_⟩
  rfl

end SecureChat
